import Mathlib

/-!
Shallow embedding of the storage core of the `db-engine` repository
(file layer, buffer layer, slotted-page layer), together with theorems
settling the specification claims against the code.

Conventions of the embedding:
* Machine integers are modelled as `Nat` (unsigned) or `Int` (signed),
  with wrapping arithmetic made explicit by reductions modulo `2^16`
  (`u16`) or `2^32` (`u32`/`i32`) exactly where the Rust code performs
  fixed-width arithmetic or `as` casts.  Wrapping corresponds to the
  release-mode semantics of Rust integer arithmetic.
* Bytes are `Nat` values (the code never branches on a byte being
  `< 256`, so no bound is imposed by the type).
* Fallible Rust functions returning `io::Result` are embedded as
  `Except Err`.  A Rust `panic!` reachable inside a function (slice
  indexing out of bounds, `expect` on `None`) and a non-terminating
  loop are both modelled by an `Option` layer: `none` means the call
  does not return normally.
-/

namespace DbEngine

/-- Error kinds, following the spec's error taxonomy.  `OutOfRange`
stands for the `io::ErrorKind::UnexpectedEof` error that
`ensure_block_range` raises with message "block out of range";
`TooSmall` stands for the `UnexpectedEof` errors of the header codecs
and of `Page::flush`; `RecordOutOfRange` is the `UnexpectedEof` error
of `get_record`. -/
inductive Err where
  | InvalidInput
  | OutOfRange
  | NotFound
  | NoSpace
  | TooSmall
  | RecordOutOfRange
  | Corrupt
  deriving DecidableEq, Repr

/-- Truncation to 16 bits: the `as u16` cast of Rust. -/
def w16 (n : Nat) : Nat := n % 65536

/-- Wrapping `u16` addition (release-mode `+` on `u16`). -/
def wadd16 (a b : Nat) : Nat := (a + b) % 65536

/-- Wrapping `u16` subtraction (release-mode `-` on `u16`);
the first argument is expected to already be `< 65536`. -/
def wsub16 (a b : Nat) : Nat := (a % 65536 + (65536 - b % 65536)) % 65536

/-- `PageHeader::SIZE` of `mm/page_header.rs` (6 bytes). -/
def PAGE_HDR_SIZE : Nat := 6

/-- `BLOCK_SIZE` of `fm/mod.rs`. -/
def BLOCK_SIZE : Nat := 4096

/-- The slotted-page header of `mm/page_header.rs`: `slot_count`,
`free_offset`, `free_bytes`, each a `u16`. -/
structure PageHeader where
  slot_count : Nat
  free_offset : Nat
  free_bytes : Nat
  deriving DecidableEq, Repr

/-- The in-memory page of `mm/page.rs`: header, payload bytes
(excluding the page header), and slot directory of
`(offset, length)` pairs. -/
structure Page where
  header : PageHeader
  data : List Nat
  slots : List (Nat × Nat)
  deriving DecidableEq, Repr

/-- `insert_record` of `mm/page_ops.rs`: check `free_bytes` against
`len(data) + 4` (both sides after the `u16` cast/overflow of the
source), append the payload, push the directory entry
`(free_offset, data_len)`, and update the three header fields with
`u16` arithmetic.  Returns the new slot id `(slots.len() - 1) as u16`. -/
def insertRecord (p : Page) (d : List Nat) : Except Err (Page × Nat) :=
  let data_len := w16 d.length
  if p.header.free_bytes < wadd16 data_len 4 then
    .error .NoSpace
  else
    let off := p.header.free_offset
    let p' : Page :=
      { header :=
          { slot_count := wadd16 p.header.slot_count 1
            free_offset := wadd16 p.header.free_offset data_len
            free_bytes := wsub16 (wsub16 p.header.free_bytes data_len) 4 }
        data := p.data ++ d
        slots := p.slots ++ [(off, data_len)] }
    .ok (p', w16 ((p.slots.length + 1) - 1))

/-- `get_record` of `mm/page_ops.rs`: bounds-check the slot id,
reject tombstones (`len == 0`), and return the payload slice at
`off.saturating_sub(PAGE_HDR_SIZE)` of length `len` (Nat subtraction
is saturating, matching `saturating_sub`). -/
def getRecord (p : Page) (slot_id : Nat) : Except Err (List Nat) :=
  if slot_id ≥ p.slots.length then
    .error .InvalidInput
  else
    let s := p.slots.getD slot_id (0, 0)
    if s.2 = 0 then
      .error .NotFound
    else
      let start := s.1 - PAGE_HDR_SIZE
      if start + s.2 > p.data.length then
        .error .RecordOutOfRange
      else
        .ok ((p.data.drop start).take s.2)

/-- `delete_record` of `mm/page_ops.rs`: bounds-check, reject
tombstones, add `len + 4` to `free_bytes` (u16), set the slot to
`(0, 0)`, and decrement `slot_count` (u16). -/
def deleteRecord (p : Page) (slot_id : Nat) : Except Err Page :=
  if slot_id ≥ p.slots.length then
    .error .InvalidInput
  else
    let s := p.slots.getD slot_id (0, 0)
    if s.2 = 0 then
      .error .NotFound
    else
      .ok { p with
            header :=
              { p.header with
                free_bytes := wadd16 p.header.free_bytes (wadd16 s.2 4)
                slot_count := wsub16 p.header.slot_count 1 }
            slots := p.slots.set slot_id (0, 0) }

/-- Loop body of `compact` in `mm/page_compact.rs`: walk the old slot
directory, skip tombstones, and append each live record's bytes to the
new payload with a fresh directory entry
`(PAGE_HDR_SIZE as u16 + new_data.len() as u16, len)`.  The slice
`self.data[start..end]` panics when `end > data.len()`; that panic is
`none`. -/
def compactAux (d : List Nat) :
    List (Nat × Nat) → List Nat → List (Nat × Nat) →
    Option (List Nat × List (Nat × Nat))
  | [], nd, ns => some (nd, ns)
  | (off, len) :: rest, nd, ns =>
    if len = 0 then
      compactAux d rest nd ns
    else
      let start := off - PAGE_HDR_SIZE
      if start + len ≤ d.length then
        let new_off := wadd16 (w16 PAGE_HDR_SIZE) (w16 nd.length)
        compactAux d rest (nd ++ (d.drop start).take len) (ns ++ [(new_off, len)])
      else
        none

/-- `compact` of `mm/page_compact.rs`: rebuild payload and slot
directory via `compactAux`, then recompute the header with `u16`
arithmetic from `page_size`. -/
def compact (p : Page) (page_size : Nat) : Option Page :=
  match compactAux p.data p.slots [] [] with
  | none => none
  | some (nd, ns) =>
    let slot_count := w16 ns.length
    let free_offset := wadd16 (w16 PAGE_HDR_SIZE) (w16 nd.length)
    let slot_dir_size := w16 (ns.length * 4)
    let free_bytes := wsub16 (wsub16 (w16 page_size) free_offset) slot_dir_size
    some { header :=
             { slot_count := slot_count
               free_offset := free_offset
               free_bytes := free_bytes }
           data := nd
           slots := ns }

/-- The record bytes held by the live (non-tombstone) entries of a
slot directory `ss` over payload `d`, in slot order: the payload
slices that `get_record` exposes. -/
def liveRecordsOn (d : List Nat) (ss : List (Nat × Nat)) : List (List Nat) :=
  ss.filterMap fun s =>
    if s.2 = 0 then none
    else some ((d.drop (s.1 - PAGE_HDR_SIZE)).take s.2)

/-- The live records of a page. -/
def liveRecords (p : Page) : List (List Nat) := liveRecordsOn p.data p.slots

/-- Total byte length of a list of record segments. -/
def totalLen (segs : List (List Nat)) : Nat := (segs.map List.length).sum

/-- The slot directory `compact` builds for the segments `segs` laid
out back-to-back starting `base` bytes into the payload region:
entry `j` is `(PAGE_HDR_SIZE + base + (length of segments before j),
length of segment j)`. -/
def cumSlots : Nat → List (List Nat) → List (Nat × Nat)
  | _, [] => []
  | base, seg :: rest => (PAGE_HDR_SIZE + base, seg.length) :: cumSlots (base + seg.length) rest

/-- Byte length of the first `j` segments. -/
def prefLen (segs : List (List Nat)) (j : Nat) : Nat := totalLen (segs.take j)

/-- Spec invariant 4 for a live slotted page of size `B`:
`PAGE_HDR_SIZE ≤ free_offset ≤ B − 4·slot_count` and
`free_bytes = B − free_offset − 4·slot_count` (all exact Nat
arithmetic, with the bound `free_offset + 4·slot_count ≤ B` stated
additively to avoid truncated subtraction). -/
def PageInv (B : Nat) (p : Page) : Prop :=
  PAGE_HDR_SIZE ≤ p.header.free_offset ∧
  p.header.free_offset + 4 * p.header.slot_count ≤ B ∧
  p.header.free_bytes + p.header.free_offset + 4 * p.header.slot_count = B

instance (B : Nat) (p : Page) : Decidable (PageInv B p) := by
  unfold PageInv; infer_instance

/-- All numeric fields of a page fit the widths the Rust types give
them (`u16` header fields and slot entries). -/
def PageU16 (p : Page) : Prop :=
  p.header.slot_count < 65536 ∧
  p.header.free_offset < 65536 ∧
  p.header.free_bytes < 65536 ∧
  ∀ s ∈ p.slots, s.1 < 65536 ∧ s.2 < 65536

instance (p : Page) : Decidable (PageU16 p) := by
  unfold PageU16; infer_instance

/-! ### Byte-level encoding of a page (`Page::load` / `Page::flush`) -/

/-- `u16::to_le_bytes`. -/
def toLE16 (n : Nat) : List Nat := [n % 256, n / 256 % 256]

/-- `u16::from_le_bytes` of the two bytes of `f` at positions `i`,
`i+1`. -/
def readU16 (f : List Nat) (i : Nat) : Nat :=
  f.getD i 0 + 256 * f.getD (i + 1) 0

/-- `PageHeader::to_bytes` of `mm/page_header.rs`: the three `u16`
fields in little-endian order. -/
def hdrBytes (h : PageHeader) : List Nat :=
  toLE16 (w16 h.slot_count) ++ toLE16 (w16 h.free_offset) ++ toLE16 (w16 h.free_bytes)

/-- The 4 bytes of one slot-directory entry as `Page::flush` writes
them. -/
def slotBytes (s : Nat × Nat) : List Nat := toLE16 (w16 s.1) ++ toLE16 (w16 s.2)

/-- The slot-directory parsing loop of `Page::load`: `count` entries
read at consecutive 4-byte positions starting at `base`. -/
def parseSlots (f : List Nat) : Nat → Nat → List (Nat × Nat)
  | _, 0 => []
  | base, k + 1 =>
    (readU16 f base, readU16 f (base + 2)) :: parseSlots f (base + 4) k

/-- `Page::load` of `mm/page.rs`.  The outer `Option` layer is `none`
exactly when the Rust code panics (the slice `&frame[0..6]` with a
frame shorter than the header).  The checks and their order follow the
source: header parse, directory-fit check, slot parsing, `free_offset`
validation, payload copy. -/
def loadPage (frame : List Nat) : Option (Except Err Page) :=
  if frame.length < PAGE_HDR_SIZE then none
  else some (
    let sc := readU16 frame 0
    let fo := readU16 frame 2
    let fb := readU16 frame 4
    let page_size := frame.length
    if page_size < PAGE_HDR_SIZE + sc * 4 then .error .Corrupt
    else
      let slots := parseSlots frame (page_size - sc * 4) sc
      if fo < PAGE_HDR_SIZE then .error .Corrupt
      else if fo > page_size - sc * 4 then .error .Corrupt
      else .ok { header := { slot_count := sc, free_offset := fo, free_bytes := fb }
                 data := (frame.drop PAGE_HDR_SIZE).take (fo - PAGE_HDR_SIZE)
                 slots := slots })

/-- `Page::flush` of `mm/page.rs`.  The source performs three
`copy_from_slice` writes into the frame at pairwise disjoint ranges
(header at `0..6`, payload at `6..6+data.len()`, slot entries at the
tail); the resulting frame is the concatenation below, with the bytes
between the payload end and the directory start kept from the old
frame.  The header written has `slot_count := slots.len() as u16` and
`free_offset := (SIZE + data.len()) as u16`; `free_bytes` is taken
from the in-memory header. -/
def flushPage (p : Page) (frame : List Nat) : Except Err (List Nat) :=
  let page_size := frame.length
  if page_size < PAGE_HDR_SIZE + p.data.length + 4 * p.slots.length then
    .error .TooSmall
  else
    let hdr : PageHeader :=
      { slot_count := w16 p.slots.length
        free_offset := w16 (PAGE_HDR_SIZE + p.data.length)
        free_bytes := p.header.free_bytes }
    .ok (hdrBytes hdr ++ p.data
      ++ (frame.drop (PAGE_HDR_SIZE + p.data.length)).take
           (page_size - 4 * p.slots.length - (PAGE_HDR_SIZE + p.data.length))
      ++ p.slots.flatMap slotBytes)

/-! ### File layer (`fm/fm_file_handler.rs`)

The disk is the managed file viewed as a sequence of blocks: a total
function from block number to the block's bytes; `read_block` and
`write_block` transfer exactly one block at offset
`block_num * BLOCK_SIZE` (made explicit by `blockOffset`), which the
block-indexed representation captures directly. -/

/-- `block_offset` of `fm/fm_file_handler.rs`. -/
def blockOffset (block_num : Nat) : Nat := block_num * BLOCK_SIZE

/-- The in-memory file header of `fm/fm_file_header.rs`: `blk_cnt`
(`u32`), `first_free_hole` (`i32`, `-1` for the empty free list) and
the two reserved `i32` fields. -/
structure FileHeader where
  blk_cnt : Nat
  first_free_hole : Int
  pre_f : Int
  next_f : Int
  deriving DecidableEq, Repr

/-- The 12-byte page header of `fm/fm_page_header.rs` used for
free-list maintenance: `next_free_page` (`i32`), `prev_free_page`
(`i32`), `free_bytes` (`u32`). -/
structure FmPageHeader where
  next_free_page : Int
  prev_free_page : Int
  free_bytes : Nat
  deriving DecidableEq, Repr

/-- `PageHeader::encoded_len()`: 12 bytes with the bincode fixint
little-endian options of `fm/mod.rs`. -/
def FM_PAGE_HDR_LEN : Nat := 12

/-- Modelled from the spec: `PageHeader::max_free_bytes()` is not under
`src/` in the revision of `fm_page_header.rs` present (only its callers
are); the spec fixes the free-page `free_bytes` to
`block_size − page_header_size`. -/
def maxFreeBytes : Nat := BLOCK_SIZE - FM_PAGE_HDR_LEN

/-- Modelled from the spec: the zero-argument `PageHeader::new_free()`
used by `append_block` is not under `src/`; the spec initialises an
appended block with "free links `−1`,
`free_bytes = block_size − page_header_size`". -/
def newFreeHdr : FmPageHeader :=
  { next_free_page := -1, prev_free_page := -1, free_bytes := maxFreeBytes }

/-- Little-endian encoding of an `i32` (bincode fixint): the value
reduced modulo `2^32`, split into four bytes. -/
def encodeI32 (x : Int) : List Nat :=
  let u := (x % 4294967296).toNat
  [u % 256, u / 256 % 256, u / 65536 % 256, u / 16777216 % 256]

/-- Little-endian encoding of a `u32` (bincode fixint). -/
def encodeU32 (n : Nat) : List Nat :=
  let u := n % 4294967296
  [u % 256, u / 256 % 256, u / 65536 % 256, u / 16777216 % 256]

/-- Decode the four bytes at position `i` as an unsigned 32-bit
little-endian value. -/
def decodeU32 (f : List Nat) (i : Nat) : Nat :=
  f.getD i 0 + 256 * f.getD (i + 1) 0 + 65536 * f.getD (i + 2) 0
    + 16777216 * f.getD (i + 3) 0

/-- Decode the four bytes at position `i` as a two's-complement `i32`. -/
def decodeI32 (f : List Nat) (i : Nat) : Int :=
  let u := decodeU32 f i
  if u < 2147483648 then (u : Int) else (u : Int) - 4294967296

/-- bincode serialisation of `FmPageHeader` (field order of the
struct: `next_free_page`, `prev_free_page`, `free_bytes`). -/
def encodeFmHdr (h : FmPageHeader) : List Nat :=
  encodeI32 h.next_free_page ++ encodeI32 h.prev_free_page ++ encodeU32 h.free_bytes

/-- bincode deserialisation of `FmPageHeader` from the first 12 bytes
of a block (`allow_trailing_bytes` ignores the rest). -/
def decodeFmHdr (blk : List Nat) : FmPageHeader :=
  { next_free_page := decodeI32 blk 0
    prev_free_page := decodeI32 blk 4
    free_bytes := decodeU32 blk 8 }

/-- The state a `FileHandle` owns: the in-memory header copy, the
`header_dirty` flag, and the file contents viewed block-wise. -/
structure FHState where
  header : FileHeader
  header_dirty : Bool
  disk : Nat → List Nat

/-- `ensure_block_range`: `block_num ≥ blk_cnt` is the
`UnexpectedEof` "block out of range" error (spec taxonomy
`OutOfRange`). -/
def ensureBlockRange (st : FHState) (block_num : Nat) : Except Err Unit :=
  if block_num ≥ st.header.blk_cnt then .error .OutOfRange else .ok ()

/-- `read_block`: range check first, then the buffer-length check
against `BLOCK_SIZE`, then the transfer of block `block_num`.  There
is no check against `block_num = 0`.  `buflen` is the length of the
caller's buffer. -/
def read_block (st : FHState) (block_num : Nat) (buflen : Nat) :
    Except Err (List Nat) :=
  match ensureBlockRange st block_num with
  | .error e => .error e
  | .ok _ =>
    if buflen ≠ BLOCK_SIZE then .error .InvalidInput
    else .ok (st.disk block_num)

/-- `write_block`: same checks, then overwrite of block `block_num`
only. -/
def write_block (st : FHState) (block_num : Nat) (buf : List Nat) :
    Except Err FHState :=
  match ensureBlockRange st block_num with
  | .error e => .error e
  | .ok _ =>
    if buf.length ≠ BLOCK_SIZE then .error .InvalidInput
    else .ok { st with disk := fun m => if m = block_num then buf else st.disk m }

/-- `read_page_header`: range check, then bincode-decode the first 12
bytes of the block. -/
def read_page_header (st : FHState) (block_num : Nat) : Except Err FmPageHeader :=
  match ensureBlockRange st block_num with
  | .error e => .error e
  | .ok _ => .ok (decodeFmHdr (st.disk block_num))

/-- `write_page_header`: range check, then overwrite the first 12
bytes of the block with the encoded header, keeping the remainder. -/
def write_page_header (st : FHState) (block_num : Nat) (h : FmPageHeader) :
    Except Err FHState :=
  match ensureBlockRange st block_num with
  | .error e => .error e
  | .ok _ =>
    .ok { st with
          disk := fun m =>
            if m = block_num then
              encodeFmHdr h ++ (st.disk block_num).drop FM_PAGE_HDR_LEN
            else st.disk m }

/-- `free_block` of `fm/fm_file_handler.rs`: reject block 0, read the
block's 12-byte header, return `Ok` *without any change* when the
block already looks linked (either link `≠ −1`) or is the list head;
otherwise push the block at the head of the free list (header write,
back-pointer fix of the old head, `first_free_hole` update, header
dirty). -/
def free_block (st : FHState) (block_num : Nat) : Except Err FHState :=
  if block_num = 0 then .error .InvalidInput
  else
    match read_page_header st block_num with
    | .error e => .error e
    | .ok page_hdr =>
      if page_hdr.prev_free_page ≠ -1 ∨ page_hdr.next_free_page ≠ -1 ∨
          st.header.first_free_hole = (block_num : Int) then
        .ok st
      else
        let hdr2 : FmPageHeader :=
          { next_free_page := st.header.first_free_hole
            prev_free_page := -1
            free_bytes := maxFreeBytes }
        match write_page_header st block_num hdr2 with
        | .error e => .error e
        | .ok st1 =>
          let afterNext : Except Err FHState :=
            if hdr2.next_free_page ≥ 0 then
              match read_page_header st1 hdr2.next_free_page.toNat with
              | .error e => .error e
              | .ok next =>
                write_page_header st1 hdr2.next_free_page.toNat
                  { next with prev_free_page := (block_num : Int) }
            else .ok st1
          match afterNext with
          | .error e => .error e
          | .ok st2 =>
            .ok { st2 with
                  header := { st2.header with first_free_hole := (block_num : Int) }
                  header_dirty := true }

/-- `detach_from_free_list`: unlink `block` given its header; the
head case updates `first_free_hole`, the interior case patches the
predecessor, and in both cases an existing successor gets its
back-pointer patched. -/
def detach_from_free_list (st : FHState) (page_hdr : FmPageHeader) :
    Except Err FHState :=
  let step1 : Except Err FHState :=
    if page_hdr.prev_free_page ≥ 0 then
      match read_page_header st page_hdr.prev_free_page.toNat with
      | .error e => .error e
      | .ok prev =>
        write_page_header st page_hdr.prev_free_page.toNat
          { prev with next_free_page := page_hdr.next_free_page }
    else
      .ok { st with
            header := { st.header with first_free_hole := page_hdr.next_free_page }
            header_dirty := true }
  match step1 with
  | .error e => .error e
  | .ok st1 =>
    if page_hdr.next_free_page ≥ 0 then
      match read_page_header st1 page_hdr.next_free_page.toNat with
      | .error e => .error e
      | .ok next =>
        write_page_header st1 page_hdr.next_free_page.toNat
          { next with prev_free_page := page_hdr.prev_free_page }
    else .ok st1

/-- The `while current >= 0` loop of `take_free_block`, walking the
free list until a block with `free_bytes ≥ min_free_bytes` is found.
The loop is unbounded in the source; `fuel` bounds the embedding and
`none` marks exhaustion. -/
def take_free_block_loop (st : FHState) (min_free_bytes : Nat) :
    Int → Nat → Option (Except Err (Option Nat × FHState))
  | _, 0 => none
  | current, fuel + 1 =>
    if current < 0 then some (.ok (none, st))
    else
      let block := current.toNat
      match read_page_header st block with
      | .error e => some (.error e)
      | .ok page_hdr =>
        if min_free_bytes ≤ page_hdr.free_bytes then
          match detach_from_free_list st page_hdr with
          | .error e => some (.error e)
          | .ok st1 =>
            match write_page_header st1 block
                { page_hdr with next_free_page := -1, prev_free_page := -1 } with
            | .error e => some (.error e)
            | .ok st2 => some (.ok (some block, st2))
        else take_free_block_loop st min_free_bytes page_hdr.next_free_page fuel

/-- `take_free_block`, starting the walk at `first_free_hole`. -/
def take_free_block (st : FHState) (min_free_bytes : Nat) (fuel : Nat) :
    Option (Except Err (Option Nat × FHState)) :=
  take_free_block_loop st min_free_bytes st.header.first_free_hole fuel

/-- `append_block`: write a fresh all-zero block with the free-style
header at the start, then `blk_cnt += 1` (`u32`) and header dirty. -/
def append_block (st : FHState) : Nat × FHState :=
  let new_block := st.header.blk_cnt
  let blockBytes := encodeFmHdr newFreeHdr ++ List.replicate (BLOCK_SIZE - FM_PAGE_HDR_LEN) 0
  (new_block,
   { st with
     header := { st.header with blk_cnt := (st.header.blk_cnt + 1) % 4294967296 }
     header_dirty := true
     disk := fun m => if m = new_block then blockBytes else st.disk m })

/-- `allocate_block_with_space`: serve from the free list when
possible, otherwise append. -/
def allocate_block_with_space (st : FHState) (min_free_bytes : Nat) (fuel : Nat) :
    Option (Except Err (Nat × FHState)) :=
  match take_free_block st min_free_bytes fuel with
  | none => none
  | some (.error e) => some (.error e)
  | some (.ok (some block, st')) => some (.ok (block, st'))
  | some (.ok (none, st')) => some (.ok (append_block st'))

/-- `allocate_block` = `allocate_block_with_space(0)`. -/
def allocate_block (st : FHState) (fuel : Nat) :
    Option (Except Err (Nat × FHState)) :=
  allocate_block_with_space st 0 fuel

/-- `allocate_block` immediately followed by `free_block` of the
returned block (the round-trip of spec property 2 / claim C7). -/
def allocThenFree (st : FHState) (fuel : Nat) :
    Option (Except Err (Nat × FHState)) :=
  match allocate_block st fuel with
  | none => none
  | some (.error e) => some (.error e)
  | some (.ok (n, st')) =>
    match free_block st' n with
    | .error e => some (.error e)
    | .ok st'' => some (.ok (n, st''))

/-! ### Buffer layer (`mm/buffer_manager.rs`)

The `HashMap<BlockId, usize>` is a function `Nat → Option Nat`; the
frame vector is a `List (Option Frame)`; the `VecDeque` queues are
lists with head = front.  `find_frame` evaluates to the map lookup
(the source's linear scan on the first line of `find_frame` discards
its result).  Rust `frames[idx]` indexing is modelled with `getD idx
none`; a panic (`unwrap` of an absent frame in `fetch`'s hit path,
`expect` on an empty LRU queue) is the outer `none`. -/

/-- One buffer frame. -/
structure Frame where
  block_id : Nat
  data : List Nat
  dirty : Bool
  pin_count : Nat
  deriving DecidableEq, Repr

/-- The buffer-manager state. -/
structure BufMgr where
  handle : FHState
  capacity : Nat
  block_size : Nat
  frames : List (Option Frame)
  lru_list : List Nat
  free_list : List Nat
  bmap : Nat → Option Nat

/-- `find_frame`: the map lookup. -/
def find_frame (bm : BufMgr) (block_id : Nat) : Option Nat := bm.bmap block_id

/-- `touch`: move `idx` to the most-recently-used end of the LRU
queue (remove its first occurrence, push it at the back). -/
def touch (lru : List Nat) (idx : Nat) : List Nat := lru.erase idx ++ [idx]

/-- `unpin`: a no-op when the block is not resident or its frame's
`pin_count` is already `0`; otherwise decrement `pin_count` by one. -/
def unpin (bm : BufMgr) (block_id : Nat) : BufMgr :=
  match find_frame bm block_id with
  | none => bm
  | some idx =>
    match bm.frames.getD idx none with
    | none => bm
    | some fr =>
      if fr.pin_count > 0 then
        { bm with frames := bm.frames.set idx (some { fr with pin_count := fr.pin_count - 1 }) }
      else bm

/-- `mark_dirty`: set the frame's dirty flag, no-op when not
resident. -/
def mark_dirty (bm : BufMgr) (block_id : Nat) : BufMgr :=
  match find_frame bm block_id with
  | none => bm
  | some idx =>
    match bm.frames.getD idx none with
    | none => bm
    | some fr => { bm with frames := bm.frames.set idx (some { fr with dirty := true }) }

/-- The victim-selection `while` loop of `fetch` (lines 87–97): look
at the LRU front; an unpinned occupied frame breaks the loop and is
the victim; otherwise the front is rotated to the back and the scan
continues.  The loop is unbounded in the source; `fuel` bounds the
embedding, `none` marking both fuel exhaustion (the loop not
terminating) and the `expect` panic on an empty queue.  On success the
rotated queue is returned alongside the victim index. -/
def select_victim (frames : List (Option Frame)) :
    List Nat → Nat → Option (Nat × List Nat)
  | _, 0 => none
  | [], _ + 1 => none
  | idx :: rest, fuel + 1 =>
    match frames.getD idx none with
    | some fr =>
      if fr.pin_count = 0 then some (idx, idx :: rest)
      else select_victim frames (rest ++ [idx]) fuel
    | none => select_victim frames (rest ++ [idx]) fuel

/-- Shared tail of `fetch`'s miss path (lines 113–140): read the block
from disk into the chosen slot, insert the frame with `pin_count = 1`
and `dirty = false`, register the map entry, and push the slot at the
MRU end. -/
def load_into (bm : BufMgr) (idx : Nat) (block_id : Nat) :
    Except Err (BufMgr × List Nat) :=
  match read_block bm.handle block_id bm.block_size with
  | .error e => .error e
  | .ok data =>
    .ok ({ bm with
           frames := bm.frames.set idx (some { block_id := block_id, data := data,
                                               dirty := false, pin_count := 1 })
           bmap := fun k => if k = block_id then some idx else bm.bmap k
           lru_list := bm.lru_list ++ [idx] }, data)

/-- `fetch`: the hit path pins the frame once more and touches the
LRU queue (the second hit block at lines 66–79 repeats the same map
lookup and is unreachable); the miss path takes an empty slot when one
exists, otherwise runs victim selection, writes the victim back when
dirty, unregisters it, and reloads.  The result pairs the new pool
state with the fetched frame bytes (the guard's view). -/
def fetch (bm : BufMgr) (block_id : Nat) (fuel : Nat) :
    Option (Except Err (BufMgr × List Nat)) :=
  match find_frame bm block_id with
  | some idx =>
    match bm.frames.getD idx none with
    | none => none
    | some fr =>
      let fr' := { fr with pin_count := fr.pin_count + 1 }
      some (.ok ({ bm with frames := bm.frames.set idx (some fr')
                           lru_list := touch bm.lru_list idx }, fr'.data))
  | none =>
    match bm.frames.findIdx? Option.isNone with
    | some free_idx => some (load_into bm free_idx block_id)
    | none =>
      match select_victim bm.frames bm.lru_list fuel with
      | none => none
      | some (victim_idx, lru') =>
        let bm1 := { bm with lru_list := lru' }
        match bm1.frames.getD victim_idx none with
        | some old_frame =>
          let wb : Except Err FHState :=
            if old_frame.dirty then write_block bm1.handle old_frame.block_id old_frame.data
            else .ok bm1.handle
          match wb with
          | .error e => some (.error e)
          | .ok h' =>
            some (load_into
              { bm1 with handle := h'
                         bmap := fun k => if k = old_frame.block_id then none else bm1.bmap k
                         frames := bm1.frames.set victim_idx none }
              victim_idx block_id)
        | none =>
          some (load_into { bm1 with frames := bm1.frames.set victim_idx none }
            victim_idx block_id)

/-- The block image `allocate_data_page` writes (lines 182–189): an
all-zero buffer of `block_size` bytes with the fresh slotted-page
header `(slot_count = 0, free_offset = PAGE_HDR_SIZE,
free_bytes = block_size − PAGE_HDR_SIZE)` serialised at its start. -/
def allocDataPageBuf (block_size : Nat) : List Nat :=
  hdrBytes { slot_count := 0, free_offset := PAGE_HDR_SIZE,
             free_bytes := block_size - PAGE_HDR_SIZE }
    ++ List.replicate (block_size - PAGE_HDR_SIZE) 0

/-- `free_page` of `mm/buffer_manager.rs` (lines 194–212): evict the
resident frame (both the `find_frame` branch and the repeated
`map.get` branch of the source, the second also clearing the map
entry), then push the block id onto the in-memory `free_list`.  The
file handle is never touched: there is no call to the handle's
`free_block`. -/
def free_page (bm : BufMgr) (block_id : Nat) : Except Err BufMgr :=
  let bm1 :=
    match find_frame bm block_id with
    | none => bm
    | some idx => { bm with frames := bm.frames.set idx none
                            lru_list := bm.lru_list.erase idx }
  let bm2 :=
    match bm1.bmap block_id with
    | none => bm1
    | some idx => { bm1 with frames := bm1.frames.set idx none
                             lru_list := bm1.lru_list.erase idx
                             bmap := fun k => if k = block_id then none else bm1.bmap k }
  .ok { bm2 with free_list := bm2.free_list ++ [block_id] }

/-! ### Arithmetic helper lemmas -/

theorem w16_lt (n : Nat) : w16 n < 65536 := Nat.mod_lt _ (by omega)

theorem w16_eq_of_lt {n : Nat} (h : n < 65536) : w16 n = n := Nat.mod_eq_of_lt h

theorem wadd16_eq {a b : Nat} (h : a + b < 65536) : wadd16 a b = a + b :=
  Nat.mod_eq_of_lt h

theorem wsub16_eq {a b : Nat} (ha : a < 65536) (hb : b ≤ a) :
    wsub16 a b = a - b := by
  unfold wsub16
  omega

/-! ### Structure of `compact` -/

theorem cumSlots_length (segs : List (List Nat)) :
    ∀ base, (cumSlots base segs).length = segs.length := by
  induction segs with
  | nil => intro base; rfl
  | cons seg rest ih => intro base; simp [cumSlots, ih]

theorem totalLen_cons (seg : List Nat) (rest : List (List Nat)) :
    totalLen (seg :: rest) = seg.length + totalLen rest := by
  simp [totalLen]

theorem prefLen_cons_succ (seg : List Nat) (rest : List (List Nat)) (j : Nat) :
    prefLen (seg :: rest) (j + 1) = seg.length + prefLen rest j := by
  simp [prefLen, totalLen]

theorem cumSlots_getD (segs : List (List Nat)) :
    ∀ base j, j < segs.length →
      (cumSlots base segs).getD j (0, 0)
        = (PAGE_HDR_SIZE + base + prefLen segs j, (segs.getD j []).length) := by
  induction segs with
  | nil => intro base j hj; simp at hj
  | cons seg rest ih =>
    intro base j hj
    cases j with
    | zero => simp [cumSlots, prefLen, totalLen]
    | succ j =>
      have hj' : j < rest.length := by simpa using hj
      simp only [cumSlots, List.getD_cons_succ, prefLen_cons_succ]
      rw [ih (base + seg.length) j hj']
      ring_nf

theorem prefLen_add_le (segs : List (List Nat)) :
    ∀ j, j < segs.length → prefLen segs j + (segs.getD j []).length ≤ totalLen segs := by
  induction segs with
  | nil => intro j hj; simp at hj
  | cons seg rest ih =>
    intro j hj
    cases j with
    | zero =>
      have h0 : totalLen ([] : List (List Nat)) = 0 := rfl
      simp only [prefLen, List.take_zero, List.getD_cons_zero, totalLen_cons]
      omega
    | succ j =>
      have hj' : j < rest.length := by simpa using hj
      have := ih j hj'
      simp only [prefLen_cons_succ, List.getD_cons_succ, totalLen_cons]
      omega

theorem flatten_drop_take (segs : List (List Nat)) :
    ∀ j, j < segs.length →
      (segs.flatten.drop (prefLen segs j)).take (segs.getD j []).length = segs.getD j [] := by
  induction segs with
  | nil => intro j hj; simp at hj
  | cons seg rest ih =>
    intro j hj
    cases j with
    | zero =>
      simp only [List.flatten_cons, List.getD_cons_zero, prefLen, List.take_zero,
        totalLen, List.map_nil, List.sum_nil, List.drop_zero]
      exact List.take_left seg rest.flatten
    | succ j =>
      have hj' : j < rest.length := by simpa using hj
      simp only [List.flatten_cons, List.getD_cons_succ, prefLen_cons_succ]
      rw [List.drop_append (prefLen rest j)]
      exact ih j hj'

theorem flatten_length_totalLen (segs : List (List Nat)) :
    segs.flatten.length = totalLen segs := by
  simp [totalLen]

/-- The loop of `compact` appends exactly the live segments, in slot
order, and the matching renumbered directory entries, provided every
live slot's slice is in range (otherwise the source panics) and the
payload stays within `u16` reach. -/
theorem compactAux_eq (d : List Nat) :
    ∀ (ss : List (Nat × Nat)) (nd : List Nat) (ns : List (Nat × Nat)),
      (∀ s ∈ ss, s.2 ≠ 0 → s.1 - PAGE_HDR_SIZE + s.2 ≤ d.length) →
      PAGE_HDR_SIZE + nd.length + totalLen (liveRecordsOn d ss) ≤ 65535 →
      compactAux d ss nd ns
        = some (nd ++ (liveRecordsOn d ss).flatten,
                ns ++ cumSlots nd.length (liveRecordsOn d ss)) := by
  intro ss
  induction ss with
  | nil =>
    intro nd ns _ _
    simp [compactAux, liveRecordsOn, cumSlots]
  | cons s rest ih =>
    intro nd ns hwf hfit
    obtain ⟨off, len⟩ := s
    by_cases h0 : len = 0
    · subst h0
      have hlive : liveRecordsOn d ((off, 0) :: rest) = liveRecordsOn d rest := by
        simp [liveRecordsOn]
      rw [hlive] at hfit
      show compactAux d ((off, 0) :: rest) nd ns = _
      rw [show compactAux d ((off, 0) :: rest) nd ns = compactAux d rest nd ns from rfl]
      rw [ih nd ns (fun s hs => hwf s (List.mem_cons_of_mem _ hs)) hfit, hlive]
    · have hchk : (off - PAGE_HDR_SIZE) + len ≤ d.length :=
        hwf (off, len) (List.mem_cons_self _ _) h0
      have hseg : ((d.drop (off - PAGE_HDR_SIZE)).take len).length = len := by
        simp only [List.length_take, List.length_drop]
        omega
      have hlive : liveRecordsOn d ((off, len) :: rest)
          = (d.drop (off - PAGE_HDR_SIZE)).take len :: liveRecordsOn d rest := by
        simp [liveRecordsOn, h0]
      rw [hlive] at hfit
      rw [totalLen_cons, hseg] at hfit
      have hfit6 : 6 + nd.length + (len + totalLen (liveRecordsOn d rest)) ≤ 65535 := hfit
      have hnd16 : w16 nd.length = nd.length := w16_eq_of_lt (by omega)
      have hoff : wadd16 (w16 PAGE_HDR_SIZE) (w16 nd.length) = PAGE_HDR_SIZE + nd.length := by
        rw [hnd16]
        show wadd16 6 nd.length = 6 + nd.length
        rw [wadd16_eq (by omega)]
      show compactAux d ((off, len) :: rest) nd ns = _
      rw [show compactAux d ((off, len) :: rest) nd ns
            = if len = 0 then compactAux d rest nd ns
              else if (off - PAGE_HDR_SIZE) + len ≤ d.length then
                compactAux d rest (nd ++ (d.drop (off - PAGE_HDR_SIZE)).take len)
                  (ns ++ [(wadd16 (w16 PAGE_HDR_SIZE) (w16 nd.length), len)])
              else none from rfl]
      rw [if_neg h0, if_pos hchk]
      rw [ih _ _ (fun s hs => hwf s (List.mem_cons_of_mem _ hs))
        (by rw [List.length_append, hseg]
            show 6 + (nd.length + len) + totalLen (liveRecordsOn d rest) ≤ 65535
            omega)]
      rw [hlive, hoff]
      simp only [List.flatten_cons, List.length_append, hseg, cumSlots]
      rw [List.append_assoc nd, List.append_assoc ns]
      rfl

/-- `compact(page_size)` on a page whose live slices are in range:
the result's payload is the concatenation of the live records, the
directory is the renumbered one, and the header is recomputed. -/
theorem compact_eq (p : Page) (B : Nat)
    (hwf : ∀ s ∈ p.slots, s.2 ≠ 0 → s.1 - PAGE_HDR_SIZE + s.2 ≤ p.data.length)
    (hfit : PAGE_HDR_SIZE + totalLen (liveRecords p) ≤ 65535) :
    compact p B
      = some { header :=
                 { slot_count := w16 (liveRecords p).length
                   free_offset := PAGE_HDR_SIZE + totalLen (liveRecords p)
                   free_bytes :=
                     wsub16 (wsub16 (w16 B) (PAGE_HDR_SIZE + totalLen (liveRecords p)))
                       (w16 ((liveRecords p).length * 4)) }
               data := (liveRecords p).flatten
               slots := cumSlots 0 (liveRecords p) } := by
  have hfit6 : 6 + totalLen (liveRecords p) ≤ 65535 := hfit
  have haux := compactAux_eq p.data p.slots [] [] hwf (by simpa using hfit)
  simp only [List.nil_append, List.length_nil] at haux
  have hfo : wadd16 (w16 PAGE_HDR_SIZE) (w16 (liveRecords p).flatten.length)
      = PAGE_HDR_SIZE + totalLen (liveRecords p) := by
    rw [flatten_length_totalLen]
    rw [w16_eq_of_lt (show totalLen (liveRecords p) < 65536 by omega)]
    show wadd16 6 _ = 6 + _
    rw [wadd16_eq (by omega)]
  unfold compact
  rw [show liveRecordsOn p.data p.slots = liveRecords p from rfl] at haux
  rw [haux]
  simp only [cumSlots_length, hfo]

/-- `get_record` on a page shaped the way `compact` leaves it: slot
`j` answers the `j`-th segment for `j` below the live count, and
`InvalidInput` from the live count upward. -/
theorem getRecord_cumulative (hdrq : PageHeader) (segs : List (List Nat))
    (hnz : ∀ t ∈ segs, t.length ≠ 0) (j : Nat) :
    (j < segs.length →
      getRecord { header := hdrq, data := segs.flatten, slots := cumSlots 0 segs } j
        = .ok (segs.getD j [])) ∧
    (segs.length ≤ j →
      getRecord { header := hdrq, data := segs.flatten, slots := cumSlots 0 segs } j
        = .error .InvalidInput) := by
  constructor
  · intro hj
    have hlen : ¬ (j ≥ (cumSlots 0 segs).length) := by
      rw [cumSlots_length]; omega
    have hgd := cumSlots_getD segs 0 j hj
    have hmem : segs.getD j [] ∈ segs := by
      rw [List.getD_eq_getElem segs [] hj]
      exact List.getElem_mem hj
    have hnz' : (segs.getD j []).length ≠ 0 := hnz _ hmem
    have hbound := prefLen_add_le segs j hj
    unfold getRecord
    rw [if_neg hlen]
    simp only [hgd]
    rw [if_neg (by simpa using hnz')]
    have hstart : PAGE_HDR_SIZE + 0 + prefLen segs j - PAGE_HDR_SIZE = prefLen segs j := by
      omega
    rw [hstart]
    rw [if_neg (by rw [flatten_length_totalLen]; omega)]
    rw [flatten_drop_take segs j hj]
  · intro hj
    unfold getRecord
    rw [if_pos (by rw [cumSlots_length]; omega)]

theorem totalLen_append (a b : List (List Nat)) :
    totalLen (a ++ b) = totalLen a + totalLen b := by
  simp [totalLen]

theorem liveRecordsOn_append (d : List Nat) (a b : List (Nat × Nat)) :
    liveRecordsOn d (a ++ b) = liveRecordsOn d a ++ liveRecordsOn d b := by
  simp [liveRecordsOn]

/-- Every live segment has the full length of its slot entry (hence is
nonempty) when the slot's slice is in range. -/
theorem liveRecordsOn_ne_nil (d : List Nat) (ss : List (Nat × Nat))
    (hwf : ∀ s ∈ ss, s.2 ≠ 0 → s.1 - PAGE_HDR_SIZE + s.2 ≤ d.length) :
    ∀ t ∈ liveRecordsOn d ss, t.length ≠ 0 := by
  intro t ht
  obtain ⟨s, hs, hf⟩ := List.mem_filterMap.mp ht
  by_cases h0 : s.2 = 0
  · simp [h0] at hf
  · rw [if_neg h0] at hf
    injection hf with hf
    subst hf
    have := hwf s hs h0
    simp only [List.length_take, List.length_drop]
    omega

/-! ### Claim C3: the page-header invariant -/

/-- C3 (amended): over a consistent page (`slot_count` matching the
directory length, `free_offset` matching the payload length, live
slots inside the payload) of block size `B ≤ 65531`:
`insert_record` preserves spec invariant 4, and `compact(B)`
establishes it whenever the live content fits the block; but
`delete_record` breaks it: after deleting a slot of length `len`,
`free_bytes + free_offset + 4·slot_count = B + len ≠ B`, because the
code adds `len + 4` to `free_bytes` and decrements `slot_count`
without reclaiming the payload bytes.  (`Page::load` also does not
validate `free_bytes` at all, so a load can produce a page violating
the equality.) -/
theorem C3_amended (B : Nat) (p : Page)
    (hB : B ≤ 65531)
    (hu : PageU16 p)
    (hsc : p.header.slot_count = p.slots.length)
    (hinv : PageInv B p)
    (hwf5 : ∀ s ∈ p.slots, s.2 ≠ 0 →
      PAGE_HDR_SIZE ≤ s.1 ∧ s.1 + s.2 ≤ p.header.free_offset)
    (hfo : p.header.free_offset = PAGE_HDR_SIZE + p.data.length) :
    (∀ d p' sid, d.length + 4 < 65536 →
      insertRecord p d = .ok (p', sid) → PageInv B p') ∧
    (∀ s p', deleteRecord p s = .ok p' →
      p'.header.free_bytes + p'.header.free_offset + 4 * p'.header.slot_count
        = B + (p.slots.getD s (0, 0)).2 ∧ ¬ PageInv B p') ∧
    (PAGE_HDR_SIZE + totalLen (liveRecords p) + 4 * (liveRecords p).length ≤ B →
      ∀ q, compact p B = some q → PageInv B q) := by
  obtain ⟨hsc16, hfo16, hfb16, hslots16⟩ := hu
  obtain ⟨hinv1, hinv2, hinv3⟩ := hinv
  have hinv1' : 6 ≤ p.header.free_offset := hinv1
  refine ⟨?_, ?_, ?_⟩
  · intro d p' sid hd hr
    have hdl : w16 d.length = d.length := w16_eq_of_lt (by omega)
    have hchk : wadd16 (w16 d.length) 4 = d.length + 4 := by
      rw [hdl]; exact wadd16_eq (by omega)
    simp only [insertRecord, hchk] at hr
    by_cases hlt : p.header.free_bytes < d.length + 4
    · rw [if_pos hlt] at hr; cases hr
    · rw [if_neg hlt] at hr
      injection hr with hr1
      injection hr1 with hp _
      subst hp
      refine ⟨?_, ?_, ?_⟩
      · show PAGE_HDR_SIZE ≤ wadd16 p.header.free_offset (w16 d.length)
        rw [hdl, wadd16_eq (by omega)]
        show 6 ≤ p.header.free_offset + d.length
        omega
      · show wadd16 p.header.free_offset (w16 d.length)
          + 4 * wadd16 p.header.slot_count 1 ≤ B
        rw [hdl, wadd16_eq (by omega), wadd16_eq (by omega)]
        omega
      · show wsub16 (wsub16 p.header.free_bytes (w16 d.length)) 4
          + wadd16 p.header.free_offset (w16 d.length)
          + 4 * wadd16 p.header.slot_count 1 = B
        rw [hdl, wsub16_eq hfb16 (by omega), wsub16_eq (by omega) (by omega),
          wadd16_eq (by omega), wadd16_eq (by omega)]
        omega
  · intro s p' hr
    unfold deleteRecord at hr
    by_cases h1 : s ≥ p.slots.length
    · rw [if_pos h1] at hr; cases hr
    rw [if_neg h1] at hr
    by_cases h2 : (p.slots.getD s (0, 0)).2 = 0
    · rw [if_pos h2] at hr; cases hr
    rw [if_neg h2] at hr
    injection hr with hp
    subst hp
    have hs' : s < p.slots.length := Nat.not_le.mp h1
    have hmem : p.slots.getD s (0, 0) ∈ p.slots := by
      rw [List.getD_eq_getElem p.slots (0, 0) hs']
      exact List.getElem_mem hs'
    have hlen := (hwf5 _ hmem h2).2
    have hsc1 : 1 ≤ p.header.slot_count := by
      rw [hsc]; omega
    have hlen4 : wadd16 (p.slots.getD s (0, 0)).2 4 = (p.slots.getD s (0, 0)).2 + 4 :=
      wadd16_eq (by omega)
    have hfbadd : wadd16 p.header.free_bytes ((p.slots.getD s (0, 0)).2 + 4)
        = p.header.free_bytes + ((p.slots.getD s (0, 0)).2 + 4) :=
      wadd16_eq (by omega)
    have hsub : wsub16 p.header.slot_count 1 = p.header.slot_count - 1 :=
      wsub16_eq hsc16 hsc1
    constructor
    · show wadd16 p.header.free_bytes (wadd16 (p.slots.getD s (0, 0)).2 4)
        + p.header.free_offset + 4 * wsub16 p.header.slot_count 1
        = B + (p.slots.getD s (0, 0)).2
      rw [hlen4, hfbadd, hsub]
      omega
    · rintro ⟨-, -, he⟩
      revert he
      show ¬ (wadd16 p.header.free_bytes (wadd16 (p.slots.getD s (0, 0)).2 4)
        + p.header.free_offset + 4 * wsub16 p.header.slot_count 1 = B)
      rw [hlen4, hfbadd, hsub]
      omega
  · intro hfit2 q hq
    have hfit2' : 6 + totalLen (liveRecords p) + 4 * (liveRecords p).length ≤ B := hfit2
    have hwfaux : ∀ t ∈ p.slots, t.2 ≠ 0 → t.1 - PAGE_HDR_SIZE + t.2 ≤ p.data.length := by
      intro t ht htnz
      have h5 := hwf5 t ht htnz
      have hfo' : p.header.free_offset = 6 + p.data.length := hfo
      have h6 : (6 : Nat) ≤ t.1 := h5.1
      show t.1 - 6 + t.2 ≤ p.data.length
      omega
    have hfitw : PAGE_HDR_SIZE + totalLen (liveRecords p) ≤ 65535 := by
      show 6 + totalLen (liveRecords p) ≤ 65535
      omega
    rw [compact_eq p B hwfaux hfitw] at hq
    injection hq with hq'
    subst hq'
    have hL : (liveRecords p).length * 4 < 65536 := by omega
    have hsc16q : w16 (liveRecords p).length = (liveRecords p).length :=
      w16_eq_of_lt (by omega)
    have hdir : w16 ((liveRecords p).length * 4) = (liveRecords p).length * 4 :=
      w16_eq_of_lt hL
    have hB16 : w16 B = B := w16_eq_of_lt (by omega)
    refine ⟨?_, ?_, ?_⟩
    · show PAGE_HDR_SIZE ≤ PAGE_HDR_SIZE + totalLen (liveRecords p)
      omega
    · show PAGE_HDR_SIZE + totalLen (liveRecords p)
        + 4 * w16 (liveRecords p).length ≤ B
      rw [hsc16q]
      show 6 + totalLen (liveRecords p) + 4 * (liveRecords p).length ≤ B
      omega
    · show wsub16 (wsub16 (w16 B) (PAGE_HDR_SIZE + totalLen (liveRecords p)))
        (w16 ((liveRecords p).length * 4))
        + (PAGE_HDR_SIZE + totalLen (liveRecords p))
        + 4 * w16 (liveRecords p).length = B
      rw [hB16, hdir, hsc16q]
      rw [show (PAGE_HDR_SIZE + totalLen (liveRecords p) : Nat)
        = 6 + totalLen (liveRecords p) from rfl]
      have hsubin : wsub16 B (6 + totalLen (liveRecords p))
          = B - (6 + totalLen (liveRecords p)) := wsub16_eq (by omega) (by omega)
      rw [hsubin, wsub16_eq (by omega) (by omega)]
      omega

/-- Counterexample for C3 as stated: the page with one 5-byte record
satisfies the invariant; a successful `delete_record(0)` yields
`free_bytes = 4090`, `free_offset = 11`, `slot_count = 0`, and
`4090 + 11 + 0 = 4101 ≠ 4096`: the invariant fails right after a
completed public operation. -/
theorem C3_counterexample :
    PageInv 4096 { header := { slot_count := 1, free_offset := 11, free_bytes := 4081 },
                   data := [1, 2, 3, 4, 5], slots := [(6, 5)] } ∧
    deleteRecord { header := { slot_count := 1, free_offset := 11, free_bytes := 4081 },
                   data := [1, 2, 3, 4, 5], slots := [(6, 5)] } 0
      = .ok { header := { slot_count := 0, free_offset := 11, free_bytes := 4090 },
              data := [1, 2, 3, 4, 5], slots := [(0, 0)] } ∧
    ¬ PageInv 4096 { header := { slot_count := 0, free_offset := 11, free_bytes := 4090 },
                     data := [1, 2, 3, 4, 5], slots := [(0, 0)] } := by
  exact ⟨by decide, rfl, by decide⟩

/-- Witness for C3 (amended): inserting `[9]` into the one-record page
preserves the invariant. -/
theorem C3_amended_witness :
    PageInv 4096 { header := { slot_count := 2, free_offset := 12, free_bytes := 4076 },
                   data := [1, 2, 3, 4, 5, 9], slots := [(6, 5), (11, 1)] } := by
  exact (C3_amended 4096
    { header := { slot_count := 1, free_offset := 11, free_bytes := 4081 },
      data := [1, 2, 3, 4, 5], slots := [(6, 5)] }
    (by decide) (by decide) (by decide) (by decide) (by decide) (by decide)).1
    [9] _ 1 (by decide) rfl

/-! ### Claim C1: slot indices across compaction -/

/-- C1 (amended): after `delete_record(s)` succeeds and
`compact(B)` succeeds, the compacted page holds exactly the surviving
records (with their pre-deletion bytes, deletion not touching the
payload), **renumbered consecutively from slot 0 in their original
order**: tombstone directory entries are dropped, not kept as
`(0, 0)`, so `get_record(j)` answers the `j`-th surviving record for
`j` below the live count and fails with `InvalidInput` (not
`NotFound`) from the live count upward.  Slot indices are therefore
not preserved and RIDs are not stable across compaction. -/
theorem C1_amended (B : Nat) (p : Page) (s : Nat) (pd q : Page)
    (hwf : ∀ t ∈ p.slots, t.2 ≠ 0 → t.1 - PAGE_HDR_SIZE + t.2 ≤ p.data.length)
    (hfit : PAGE_HDR_SIZE + totalLen (liveRecords p) ≤ 65535)
    (hdel : deleteRecord p s = .ok pd)
    (hcomp : compact pd B = some q) :
    q.slots.length + 1 = (liveRecords p).length ∧
    liveRecords pd = liveRecordsOn p.data (p.slots.take s)
      ++ liveRecordsOn p.data (p.slots.drop (s + 1)) ∧
    (∀ j, j < q.slots.length → getRecord q j = .ok ((liveRecords pd).getD j [])) ∧
    (∀ j, q.slots.length ≤ j → getRecord q j = .error .InvalidInput) := by
  unfold deleteRecord at hdel
  by_cases h1 : s ≥ p.slots.length
  · rw [if_pos h1] at hdel; cases hdel
  rw [if_neg h1] at hdel
  by_cases h2 : (p.slots.getD s (0, 0)).2 = 0
  · rw [if_pos h2] at hdel; cases hdel
  rw [if_neg h2] at hdel
  injection hdel with hpd
  have hs' : s < p.slots.length := Nat.not_le.mp h1
  have hgetD : p.slots.getD s (0, 0) = p.slots[s] := List.getD_eq_getElem p.slots (0, 0) hs'
  have h2' : ¬ (p.slots[s].2 = 0) := by rw [← hgetD]; exact h2
  have hpdd : pd.data = p.data := by rw [← hpd]
  have hpds : pd.slots = p.slots.set s (0, 0) := by rw [← hpd]
  have hset : p.slots.set s (0, 0) = p.slots.take s ++ (0, 0) :: p.slots.drop (s + 1) := by
    rw [List.set_eq_take_append_cons_drop, if_pos hs']
  have hlive_pd : liveRecords pd = liveRecordsOn p.data (p.slots.take s)
      ++ liveRecordsOn p.data (p.slots.drop (s + 1)) := by
    show liveRecordsOn pd.data pd.slots = _
    rw [hpdd, hpds, hset, liveRecordsOn_append]
    congr 1
  have hdecomp : p.slots = p.slots.take s ++ p.slots[s] :: p.slots.drop (s + 1) := by
    conv_lhs => rw [← List.take_append_drop s p.slots]
    rw [← List.get_drop_eq_drop p.slots s hs']
  have hliveP : liveRecords p = liveRecordsOn p.data (p.slots.take s)
      ++ ((p.data.drop (p.slots[s].1 - PAGE_HDR_SIZE)).take p.slots[s].2)
        :: liveRecordsOn p.data (p.slots.drop (s + 1)) := by
    show liveRecordsOn p.data p.slots = _
    conv_lhs => rw [hdecomp]
    rw [liveRecordsOn_append]
    congr 1
    show List.filterMap _ (p.slots[s] :: p.slots.drop (s + 1)) = _
    rw [List.filterMap_cons]
    simp only [if_neg h2']
    rfl
  have hwfpd : ∀ t ∈ pd.slots, t.2 ≠ 0 → t.1 - PAGE_HDR_SIZE + t.2 ≤ pd.data.length := by
    intro t ht htnz
    rw [hpds] at ht
    rw [hpdd]
    rcases List.mem_or_eq_of_mem_set ht with hmem | heq
    · exact hwf t hmem htnz
    · subst heq; exact absurd rfl htnz
  have hfit6 : 6 + totalLen (liveRecords p) ≤ 65535 := hfit
  have htotP : totalLen (liveRecords p)
      = totalLen (liveRecordsOn p.data (p.slots.take s))
        + ((p.data.drop (p.slots[s].1 - PAGE_HDR_SIZE)).take p.slots[s].2).length
        + totalLen (liveRecordsOn p.data (p.slots.drop (s + 1))) := by
    rw [hliveP, totalLen_append, totalLen_cons]
    omega
  have htotPd : totalLen (liveRecords pd)
      = totalLen (liveRecordsOn p.data (p.slots.take s))
        + totalLen (liveRecordsOn p.data (p.slots.drop (s + 1))) := by
    rw [hlive_pd, totalLen_append]
  have hfitpd : PAGE_HDR_SIZE + totalLen (liveRecords pd) ≤ 65535 := by
    show 6 + totalLen (liveRecords pd) ≤ 65535
    omega
  rw [compact_eq pd B hwfpd hfitpd] at hcomp
  injection hcomp with hq
  have hnz : ∀ t ∈ liveRecords pd, t.length ≠ 0 := by
    show ∀ t ∈ liveRecordsOn pd.data pd.slots, t.length ≠ 0
    exact liveRecordsOn_ne_nil pd.data pd.slots hwfpd
  have hqslots : q.slots = cumSlots 0 (liveRecords pd) := by rw [← hq]
  have hqlen : q.slots.length = (liveRecords pd).length := by
    rw [hqslots, cumSlots_length]
  refine ⟨?_, hlive_pd, ?_, ?_⟩
  · rw [hqlen, hliveP, hlive_pd]
    simp only [List.length_append, List.length_cons]
    omega
  · intro j hj
    rw [← hq]
    rw [hqlen] at hj
    exact (getRecord_cumulative _ (liveRecords pd) hnz j).1 hj
  · intro j hj
    rw [← hq]
    rw [hqlen] at hj
    exact (getRecord_cumulative _ (liveRecords pd) hnz j).2 hj

/-- The three-record page of scenario S4 in miniature: records `"A"`,
`"BB"`, `"CCC"`. -/
def pC1 : Page :=
  { header := { slot_count := 3, free_offset := 12, free_bytes := 4072 }
    data := [65, 66, 66, 67, 67, 67]
    slots := [(6, 1), (7, 2), (9, 3)] }

/-- `pC1` after `delete_record(1)`. -/
def pdC1 : Page :=
  { header := { slot_count := 2, free_offset := 12, free_bytes := 4078 }
    data := [65, 66, 66, 67, 67, 67]
    slots := [(6, 1), (0, 0), (9, 3)] }

/-- `pdC1` after `compact(4096)`. -/
def qC1 : Page :=
  { header := { slot_count := 2, free_offset := 10, free_bytes := 4078 }
    data := [65, 67, 67, 67]
    slots := [(6, 1), (7, 3)] }

/-- Counterexample for C1 as stated: before deletion, slot 2 answers
`"CCC"`; after `delete_record(1)` and `compact(4096)` the surviving
slot 2 answers `InvalidInput` instead of its pre-deletion bytes — the
record moved to slot 1 — and the tombstone entry `(0, 0)` is gone
(the directory shrank to two entries). -/
theorem C1_counterexample :
    deleteRecord pC1 1 = .ok pdC1 ∧
    compact pdC1 4096 = some qC1 ∧
    getRecord pC1 2 = .ok [67, 67, 67] ∧
    getRecord qC1 2 = .error .InvalidInput ∧
    qC1.slots.length = 2 := by
  exact ⟨rfl, rfl, rfl, rfl, rfl⟩

/-- Witness for C1 (amended): on the concrete pages, the compacted
page answers the two surviving records at slots 0 and 1. -/
theorem C1_amended_witness :
    getRecord qC1 0 = .ok ((liveRecords pdC1).getD 0 []) ∧
    getRecord qC1 1 = .ok ((liveRecords pdC1).getD 1 []) := by
  have h := C1_amended 4096 pC1 1 pdC1 qC1 (by decide) (by decide) rfl rfl
  exact ⟨h.2.2.1 0 (by decide), h.2.2.1 1 (by decide)⟩

/-! ### Claim C10: `unpin` never underflows a pin count -/

/-- C10: `unpin(b)` is a total no-op when `b` is not resident (no map
entry, or a map entry pointing at an empty slot) or when the frame's
`pin_count` is `0`; otherwise it decrements `pin_count` by exactly one
and changes nothing else.  Since the decrement is guarded by
`pin_count > 0`, pin counts never underflow, even when `unpin` is
called more often than `fetch` for the same block (as `TableManager`
does after the page guard's drop has already unpinned). -/
theorem C10_unpin_no_underflow (bm : BufMgr) (b : Nat) :
    (find_frame bm b = none → unpin bm b = bm) ∧
    (∀ idx, find_frame bm b = some idx → bm.frames.getD idx none = none →
      unpin bm b = bm) ∧
    (∀ idx fr, find_frame bm b = some idx → bm.frames.getD idx none = some fr →
      fr.pin_count = 0 → unpin bm b = bm) ∧
    (∀ idx fr, find_frame bm b = some idx → bm.frames.getD idx none = some fr →
      0 < fr.pin_count →
      unpin bm b =
        { bm with frames := bm.frames.set idx (some { fr with pin_count := fr.pin_count - 1 }) }) := by
  refine ⟨?_, ?_, ?_, ?_⟩
  · intro h; simp [unpin, h]
  · intro idx h1 h2; unfold unpin; rw [h1]; simp only []; rw [h2]
  · intro idx fr h1 h2 h3; unfold unpin; rw [h1]; simp only []; rw [h2]; simp [h3]
  · intro idx fr h1 h2 h3; unfold unpin; rw [h1]; simp only []; rw [h2]; simp [h3]

/-- A one-frame pool whose frame for block 1 has `pin_count = 1`. -/
def bmW : BufMgr :=
  { handle := { header := { blk_cnt := 3, first_free_hole := -1, pre_f := 0, next_f := 0 }
                header_dirty := false
                disk := fun _ => [] }
    capacity := 1
    block_size := BLOCK_SIZE
    frames := [some { block_id := 1, data := [], dirty := false, pin_count := 1 }]
    lru_list := [0]
    free_list := []
    bmap := fun k => if k = 1 then some 0 else none }

/-- Witness for C10: on the concrete pool `bmW`, unpinning block 1
decrements its pin count from 1 to 0, and unpinning it again (now at
pin count 0) is a no-op. -/
theorem C10_unpin_no_underflow_witness :
    unpin bmW 1 =
      { bmW with frames := [some { block_id := 1, data := [], dirty := false, pin_count := 0 }] } ∧
    unpin { bmW with
            frames := [some { block_id := 1, data := [], dirty := false, pin_count := 0 }] } 1 =
      { bmW with frames := [some { block_id := 1, data := [], dirty := false, pin_count := 0 }] } := by
  constructor
  · exact (C10_unpin_no_underflow bmW 1).2.2.2 0
      { block_id := 1, data := [], dirty := false, pin_count := 1 } rfl rfl (by decide)
  · exact (C10_unpin_no_underflow
      { bmW with frames := [some { block_id := 1, data := [], dirty := false, pin_count := 0 }] }
      1).2.2.1 0
      { block_id := 1, data := [], dirty := false, pin_count := 0 } rfl rfl rfl

/-! ### Claim C5: `free_page` does not reach the on-disk free list -/

/-- C5 (amended): `free_page(block_id)` evicts the resident frame (and
clears its map entry), appends `block_id` to the buffer manager's
in-memory `free_list`, and returns `Ok` — but it never calls the file
handle's `free_block`: the whole `FileHandle` state, including the
header's `first_free_hole` and the file bytes, is left unchanged, so
the block is not placed on the on-disk free list. -/
theorem C5_free_page_no_delegation (bm : BufMgr) (b : Nat) :
    ∃ bm', free_page bm b = .ok bm' ∧
      bm'.handle = bm.handle ∧
      bm'.free_list = bm.free_list ++ [b] ∧
      (find_frame bm b = none →
        bm'.frames = bm.frames ∧ bm'.lru_list = bm.lru_list ∧ bm'.bmap = bm.bmap) ∧
      (∀ idx, find_frame bm b = some idx →
        bm'.frames = bm.frames.set idx none ∧
        bm'.lru_list = (bm.lru_list.erase idx).erase idx ∧
        bm'.bmap b = none ∧ ∀ k, k ≠ b → bm'.bmap k = bm.bmap k) := by
  cases h : find_frame bm b with
  | none =>
    have hfp : free_page bm b = .ok { bm with free_list := bm.free_list ++ [b] } := by
      simp [free_page, find_frame] at h ⊢
      simp [h]
    refine ⟨_, hfp, rfl, rfl, fun _ => ⟨rfl, rfl, rfl⟩, ?_⟩
    intro idx hidx
    exact absurd hidx (by simp)
  | some idx =>
    have hb : bm.bmap b = some idx := h
    have hfp : free_page bm b = .ok
        { bm with frames := bm.frames.set idx none
                  lru_list := (bm.lru_list.erase idx).erase idx
                  free_list := bm.free_list ++ [b]
                  bmap := fun k => if k = b then none else bm.bmap k } := by
      simp [free_page, find_frame, hb, List.set_set]
    refine ⟨_, hfp, rfl, rfl, ?_, ?_⟩
    · intro hn; exact absurd hn (by simp)
    · intro idx2 hidx2
      injection hidx2 with he
      subst he
      exact ⟨rfl, rfl, by simp, fun k hk => by simp [hk]⟩

/-- A pool with nothing resident and an empty on-disk free list. -/
def bm5 : BufMgr :=
  { handle := { header := { blk_cnt := 9, first_free_hole := -1, pre_f := 0, next_f := 0 }
                header_dirty := false
                disk := fun _ => [] }
    capacity := 1
    block_size := BLOCK_SIZE
    frames := [none]
    lru_list := []
    free_list := []
    bmap := fun _ => none }

/-- A pool like `bm5` but with block 7 resident in frame 0. -/
def bm5r : BufMgr :=
  { bm5 with
    frames := [some { block_id := 7, data := [], dirty := false, pin_count := 0 }]
    lru_list := [0]
    bmap := fun k => if k = 7 then some 0 else none }

/-- Witness for C5 (amended): freeing resident block 7 evicts it,
appends it to the in-memory free list, and leaves the file handle
untouched. -/
theorem C5_free_page_no_delegation_witness :
    ∃ bm', free_page bm5r 7 = .ok bm' ∧ bm'.handle = bm5r.handle ∧
      bm'.free_list = bm5r.free_list ++ [7] ∧ bm'.bmap 7 = none := by
  obtain ⟨bm', h1, h2, h3, -, h5⟩ := C5_free_page_no_delegation bm5r 7
  exact ⟨bm', h1, h2, h3, (h5 0 rfl).2.2.1⟩

/-- Counterexample for C5 as stated: `free_page(7)` on `bm5` returns
`Ok`, yet the file header's `first_free_hole` is still `-1`, not `7`:
the block was not placed on the on-disk free list (and block 7 was not
previously free). -/
theorem C5_counterexample :
    free_page bm5 7 = .ok { bm5 with free_list := [7] } ∧
    ({ bm5 with free_list := [7] } : BufMgr).handle.header.first_free_hole ≠ ((7 : Nat) : Int) := by
  exact ⟨rfl, by decide⟩

/-! ### Claim C4: `read_block` / `write_block` error behaviour -/

/-- C4 (amended): `read_block(n, buf)` and `write_block(n, buf)` check
the block range first (`OutOfRange` when `n ≥ blk_cnt`), then the
buffer length (`InvalidInput` when it differs from `BLOCK_SIZE`), and
otherwise transfer exactly the one block `n` (at file offset
`n · BLOCK_SIZE`).  There is **no** rejection of `n = 0`: block 0 is
read and written through this path like any other in-range block. -/
theorem C4_amended (st : FHState) (n buflen : Nat) (buf : List Nat) :
    (st.header.blk_cnt ≤ n →
      read_block st n buflen = .error .OutOfRange ∧
      write_block st n buf = .error .OutOfRange) ∧
    (n < st.header.blk_cnt → buflen ≠ BLOCK_SIZE →
      read_block st n buflen = .error .InvalidInput) ∧
    (n < st.header.blk_cnt → buf.length ≠ BLOCK_SIZE →
      write_block st n buf = .error .InvalidInput) ∧
    (n < st.header.blk_cnt → buflen = BLOCK_SIZE →
      read_block st n buflen = .ok (st.disk n)) ∧
    (n < st.header.blk_cnt → buf.length = BLOCK_SIZE →
      ∃ st', write_block st n buf = .ok st' ∧ st'.header = st.header ∧
        st'.disk n = buf ∧ ∀ m, m ≠ n → st'.disk m = st.disk m) := by
  refine ⟨?_, ?_, ?_, ?_, ?_⟩
  · intro h
    constructor <;> simp [read_block, write_block, ensureBlockRange, h]
  · intro h1 h2
    simp [read_block, ensureBlockRange, Nat.not_le.mpr h1, h2]
  · intro h1 h2
    simp [write_block, ensureBlockRange, Nat.not_le.mpr h1, h2]
  · intro h1 h2
    simp [read_block, ensureBlockRange, Nat.not_le.mpr h1, h2]
  · intro h1 h2
    refine ⟨{ st with disk := fun m => if m = n then buf else st.disk m },
      by simp [write_block, ensureBlockRange, Nat.not_le.mpr h1, h2], rfl, by simp, ?_⟩
    intro m hm
    simp [hm]

/-- A two-block file state whose blocks are all zeros. -/
def st4 : FHState :=
  { header := { blk_cnt := 2, first_free_hole := -1, pre_f := 0, next_f := 0 }
    header_dirty := false
    disk := fun _ => List.replicate BLOCK_SIZE 0 }

/-- Counterexample for C4 as stated: reading block 0 with a
correctly-sized buffer does **not** fail with `InvalidInput` — it
succeeds and returns the header block's bytes (and writing block 0
succeeds likewise). -/
theorem C4_counterexample :
    read_block st4 0 BLOCK_SIZE = .ok (List.replicate BLOCK_SIZE 0) ∧
    write_block st4 0 (List.replicate BLOCK_SIZE 1) ≠ .error .InvalidInput := by
  constructor
  · rfl
  · simp [write_block, ensureBlockRange, st4]

/-- Witness for C4 (amended): the error cases on `st4`. -/
theorem C4_amended_witness :
    read_block st4 5 BLOCK_SIZE = .error .OutOfRange ∧
    read_block st4 1 10 = .error .InvalidInput ∧
    read_block st4 1 BLOCK_SIZE = .ok (List.replicate BLOCK_SIZE 0) := by
  refine ⟨((C4_amended st4 5 BLOCK_SIZE []).1 (by decide)).1, ?_, ?_⟩
  · exact (C4_amended st4 1 10 []).2.1 (by decide) (by decide)
  · exact (C4_amended st4 1 BLOCK_SIZE []).2.2.2.1 (by decide) rfl

/-! ### Claim C8: insert accounting -/

/-- C8 (amended): for a page whose fields fit their `u16` widths and a
record `d` short enough that no 16-bit truncation or wrap occurs
(`len(d) + 4 < 2^16`, `free_offset + len(d) < 2^16`,
`slot_count + 1 < 2^16`, `slots.len() + 1 < 2^16`): `insert_record(d)`
succeeds exactly when `free_bytes ≥ len(d) + 4`; on success
`free_bytes` drops by exactly `len(d) + 4`, `slot_count` rises by 1,
`free_offset` advances by `len(d)`, the directory gains
`(old free_offset, len(d))` at the new last index — the returned slot
id — and the payload gains `d` at its end; on failure the result is
`NoSpace` (and, the operation being pure in all other fields, the page
is unchanged).  For longer records the Rust `as u16` cast truncates
and the claim fails (see the counterexample). -/
theorem C8_amended (p : Page) (d : List Nat)
    (hu : PageU16 p)
    (hd : d.length + 4 < 65536)
    (hfo : p.header.free_offset + d.length < 65536)
    (hsc : p.header.slot_count + 1 < 65536)
    (hsl : p.slots.length + 1 < 65536) :
    ((insertRecord p d).isOk = true ↔ d.length + 4 ≤ p.header.free_bytes) ∧
    (∀ p' sid, insertRecord p d = .ok (p', sid) →
      p'.header.free_bytes + (d.length + 4) = p.header.free_bytes ∧
      p'.header.slot_count = p.header.slot_count + 1 ∧
      p'.header.free_offset = p.header.free_offset + d.length ∧
      p'.slots = p.slots ++ [(p.header.free_offset, d.length)] ∧
      p'.data = p.data ++ d ∧
      sid = p.slots.length) ∧
    (p.header.free_bytes < d.length + 4 → insertRecord p d = .error .NoSpace) := by
  obtain ⟨hsc16, hfo16, hfb16, -⟩ := hu
  have hdl : w16 d.length = d.length := w16_eq_of_lt (by omega)
  have hchk : wadd16 (w16 d.length) 4 = d.length + 4 := by
    rw [hdl]; exact wadd16_eq (by omega)
  refine ⟨?_, ?_, ?_⟩
  · simp only [insertRecord, hchk]
    by_cases hlt : p.header.free_bytes < d.length + 4
    · rw [if_pos hlt]
      simp only [Except.isOk, Except.toBool, Bool.false_eq_true, false_iff]
      omega
    · rw [if_neg hlt]
      simp only [Except.isOk, Except.toBool, true_iff]
      omega
  · intro p' sid hr
    simp only [insertRecord, hchk] at hr
    by_cases hlt : p.header.free_bytes < d.length + 4
    · rw [if_pos hlt] at hr; cases hr
    · rw [if_neg hlt] at hr
      injection hr with hr1
      injection hr1 with hp hsid
      subst hp
      subst hsid
      refine ⟨?_, ?_, ?_, ?_, rfl, ?_⟩
      · show wsub16 (wsub16 p.header.free_bytes (w16 d.length)) 4 + (d.length + 4)
          = p.header.free_bytes
        rw [hdl, wsub16_eq hfb16 (by omega), wsub16_eq (by omega) (by omega)]
        omega
      · show wadd16 p.header.slot_count 1 = p.header.slot_count + 1
        exact wadd16_eq hsc
      · show wadd16 p.header.free_offset (w16 d.length)
          = p.header.free_offset + d.length
        rw [hdl]; exact wadd16_eq hfo
      · show p.slots ++ [(p.header.free_offset, w16 d.length)]
          = p.slots ++ [(p.header.free_offset, d.length)]
        rw [hdl]
      · show w16 (p.slots.length + 1 - 1) = p.slots.length
        rw [Nat.add_sub_cancel]
        exact w16_eq_of_lt (by omega)
  · intro hlt
    simp only [insertRecord, hchk]
    rw [if_pos hlt]

/-- Counterexample for C8 as stated (for *every* page and data): on a
page with `free_offset = 65535` and `free_bytes = 100`, inserting the
2-byte record `[7, 7]` succeeds, but the new `free_offset` is
`(65535 + 2) mod 2^16 = 1`, not `65535 + 2`: the `u16` arithmetic of
the source wraps, so "free_offset increases by len(d)" fails. -/
theorem C8_counterexample :
    insertRecord { header := { slot_count := 0, free_offset := 65535, free_bytes := 100 },
                   data := [], slots := [] } [7, 7]
      = .ok ({ header := { slot_count := 1, free_offset := 1, free_bytes := 94 },
               data := [7, 7], slots := [(65535, 2)] }, 0) ∧
    (1 : Nat) ≠ 65535 + 2 := by
  exact ⟨rfl, by decide⟩

/-- The empty page of a freshly allocated 4096-byte block. -/
def pageW8 : Page :=
  { header := { slot_count := 0, free_offset := 6, free_bytes := 4090 }
    data := [], slots := [] }

/-- Witness for C8 (amended): inserting `[9]` into the empty page of a
4096-byte block. -/
theorem C8_amended_witness :
    ((insertRecord pageW8 [9]).isOk = true ↔
      [9].length + 4 ≤ pageW8.header.free_bytes) ∧
    insertRecord pageW8 [9]
      = .ok ({ header := { slot_count := 1, free_offset := 7, free_bytes := 4085 },
               data := [9], slots := [(6, 1)] }, 0) := by
  refine ⟨(C8_amended pageW8 [9] (by decide) (by decide) (by decide) (by decide)
    (by decide)).1, ?_⟩
  rfl

/-! ### Claim C2: all frames pinned -/

/-- A one-frame pool whose only frame (block 1) is pinned; block 2 is
on disk but not resident. -/
def pool2 : BufMgr :=
  { handle := { header := { blk_cnt := 3, first_free_hole := -1, pre_f := 0, next_f := 0 }
                header_dirty := false
                disk := fun _ => List.replicate BLOCK_SIZE 0 }
    capacity := 1
    block_size := BLOCK_SIZE
    frames := [some { block_id := 1, data := List.replicate BLOCK_SIZE 0,
                      dirty := false, pin_count := 1 }]
    lru_list := [0]
    free_list := []
    bmap := fun k => if k = 1 then some 0 else none }

/-- C2 (code bug): with every frame pinned, `fetch` of a non-resident
block never produces a `NoVictim` error — the victim-selection loop
rotates the LRU queue forever.  On the concrete pool `pool2` the
embedding returns `none` (non-termination) for *every* fuel bound;
since one rotation of the all-pinned queue returns it to its starting
state, the source loop diverges. -/
theorem C2_fetch_all_pinned_diverges : ∀ fuel, fetch pool2 2 fuel = none := by
  have hsel : ∀ f, select_victim pool2.frames [0] f = none := by
    intro f
    induction f with
    | zero => rfl
    | succ n ih =>
      show select_victim pool2.frames ([] ++ [0]) n = none
      exact ih
  intro fuel
  show (match select_victim pool2.frames [0] fuel with
        | none => none
        | some (victim_idx, lru') => _) = none
  rw [hsel fuel]

/-! ### Byte-level lemmas for the page codec -/

theorem u16_digits {n : Nat} (h : n < 65536) :
    n % 256 + 256 * (n / 256 % 256) = n := by omega

theorem getD_append_at (pre l : List Nat) (i : Nat) :
    (pre ++ l).getD (pre.length + i) 0 = l.getD i 0 := by
  rw [List.getD_append_right _ _ _ _ (by omega)]
  congr 1
  omega

theorem readU16_shift (x l : List Nat) (i : Nat) :
    readU16 (x ++ l) (x.length + i) = readU16 l i := by
  unfold readU16
  rw [getD_append_at, show x.length + i + 1 = x.length + (i + 1) by omega, getD_append_at]

theorem readU16_at (pre : List Nat) {n : Nat} (hn : n < 65536) (rest : List Nat) :
    readU16 (pre ++ (toLE16 n ++ rest)) pre.length = n := by
  rw [show pre.length = pre.length + 0 by omega, readU16_shift]
  show (n % 256 :: n / 256 % 256 :: rest).getD 0 0
    + 256 * (n % 256 :: n / 256 % 256 :: rest).getD 1 0 = n
  simp only [List.getD_cons_zero, List.getD_cons_succ]
  omega

theorem length_toLE16 (n : Nat) : (toLE16 n).length = 2 := rfl

theorem length_hdrBytes (h : PageHeader) : (hdrBytes h).length = 6 := rfl

theorem length_flatMap_slotBytes (ss : List (Nat × Nat)) :
    (ss.flatMap slotBytes).length = 4 * ss.length := by
  induction ss with
  | nil => rfl
  | cons t rest ih =>
    rw [List.flatMap_cons, List.length_append, ih]
    show 4 + 4 * rest.length = 4 * (rest.length + 1)
    omega

theorem readU16_hdrBytes (h : PageHeader) (rest : List Nat) :
    readU16 (hdrBytes h ++ rest) 0 = w16 h.slot_count ∧
    readU16 (hdrBytes h ++ rest) 2 = w16 h.free_offset ∧
    readU16 (hdrBytes h ++ rest) 4 = w16 h.free_bytes := by
  have h1 := w16_lt h.slot_count
  have h2 := w16_lt h.free_offset
  have h3 := w16_lt h.free_bytes
  unfold hdrBytes toLE16 readU16
  refine ⟨?_, ?_, ?_⟩ <;>
    simp only [List.cons_append, List.nil_append, List.getD_cons_zero,
      List.getD_cons_succ] <;>
    omega

theorem parseSlots_at :
    ∀ (ss : List (Nat × Nat)) (pre : List Nat),
      (∀ t ∈ ss, t.1 < 65536 ∧ t.2 < 65536) →
      parseSlots (pre ++ ss.flatMap slotBytes) pre.length ss.length = ss := by
  intro ss
  induction ss with
  | nil => intro pre _; rfl
  | cons t rest ih =>
    intro pre hb
    have ht := hb t (List.mem_cons_self _ _)
    have hrest := fun u hu => hb u (List.mem_cons_of_mem _ hu)
    have hw1 : w16 t.1 = t.1 := w16_eq_of_lt ht.1
    have hw2 : w16 t.2 = t.2 := w16_eq_of_lt ht.2
    have hflat : (t :: rest).flatMap slotBytes
        = toLE16 t.1 ++ (toLE16 t.2 ++ rest.flatMap slotBytes) := by
      rw [List.flatMap_cons]
      show slotBytes t ++ rest.flatMap slotBytes = _
      unfold slotBytes
      rw [hw1, hw2, List.append_assoc]
    show parseSlots (pre ++ (t :: rest).flatMap slotBytes) pre.length (rest.length + 1)
      = t :: rest
    rw [show parseSlots (pre ++ (t :: rest).flatMap slotBytes) pre.length (rest.length + 1)
        = (readU16 (pre ++ (t :: rest).flatMap slotBytes) pre.length,
           readU16 (pre ++ (t :: rest).flatMap slotBytes) (pre.length + 2))
          :: parseSlots (pre ++ (t :: rest).flatMap slotBytes) (pre.length + 4) rest.length
      from rfl]
    have hfst : readU16 (pre ++ (t :: rest).flatMap slotBytes) pre.length = t.1 := by
      rw [hflat]
      exact readU16_at pre ht.1 _
    have hsnd : readU16 (pre ++ (t :: rest).flatMap slotBytes) (pre.length + 2) = t.2 := by
      rw [hflat, ← List.append_assoc, ← List.append_assoc]
      rw [show pre.length + 2 = ((pre ++ toLE16 t.1)).length by
        rw [List.length_append, length_toLE16]]
      rw [List.append_assoc (pre ++ toLE16 t.1)]
      exact readU16_at _ ht.2 _
    have htail : parseSlots (pre ++ (t :: rest).flatMap slotBytes) (pre.length + 4)
        rest.length = rest := by
      have hpre4 : (pre ++ (toLE16 t.1 ++ toLE16 t.2)).length = pre.length + 4 := by
        rw [List.length_append, List.length_append, length_toLE16, length_toLE16]
      rw [hflat, ← List.append_assoc, ← List.append_assoc, List.append_assoc pre,
        ← hpre4]
      exact ih _ hrest
    rw [hfst, hsnd, htail]

/-! ### Claim C6: page round-trip -/

/-- C6 (amended): flushing any page whose content fits the frame and
whose widths fit `u16` succeeds, and loading the flushed frame yields
the page with its payload and slot directory intact but its header
**normalised**: `slot_count` becomes the directory length and
`free_offset` becomes `PAGE_HDR_SIZE + payload length`, because
`Page::flush` writes those computed values rather than the stored
header fields.  Hence `load(flush(p)) = p` exactly when the stored
header already agrees with the directory and payload; for other pages
(e.g. any page just after `delete_record`, which decrements
`slot_count` without shrinking the directory) the round-trip is not
the identity. -/
theorem C6_amended (p : Page) (frame : List Nat)
    (hsl : p.slots.length < 65536)
    (hdl : PAGE_HDR_SIZE + p.data.length < 65536)
    (hfb : p.header.free_bytes < 65536)
    (hslots : ∀ t ∈ p.slots, t.1 < 65536 ∧ t.2 < 65536)
    (hcap : PAGE_HDR_SIZE + p.data.length + 4 * p.slots.length ≤ frame.length) :
    ∃ out, flushPage p frame = .ok out ∧
      loadPage out = some (.ok
        { header := { slot_count := p.slots.length
                      free_offset := PAGE_HDR_SIZE + p.data.length
                      free_bytes := p.header.free_bytes }
          data := p.data, slots := p.slots }) ∧
      (loadPage out = some (.ok p) ↔
        (p.header.slot_count = p.slots.length ∧
         p.header.free_offset = PAGE_HDR_SIZE + p.data.length)) := by
  obtain ⟨⟨psc, pfo, pfb⟩, pdata, pslots⟩ := p
  simp only at hsl hdl hfb hslots hcap ⊢
  have hdl6 : 6 + pdata.length < 65536 := hdl
  have hcap6 : 6 + pdata.length + 4 * pslots.length ≤ frame.length := hcap
  refine ⟨hdrBytes (PageHeader.mk (w16 pslots.length) (w16 (6 + pdata.length)) pfb)
      ++ pdata
      ++ (frame.drop (6 + pdata.length)).take
          (frame.length - 4 * pslots.length - (6 + pdata.length))
      ++ pslots.flatMap slotBytes, ?_, ?_⟩
  · simp only [flushPage, PAGE_HDR_SIZE]
    rw [if_neg (by omega)]
  · set hdrW : PageHeader :=
      PageHeader.mk (w16 pslots.length) (w16 (6 + pdata.length)) pfb with hhdrW
    set mid : List Nat := (frame.drop (6 + pdata.length)).take
        (frame.length - 4 * pslots.length - (6 + pdata.length)) with hmid
    set out : List Nat := hdrBytes hdrW ++ pdata ++ mid ++ pslots.flatMap slotBytes
      with hout
    have hmidlen : mid.length = frame.length - 4 * pslots.length - (6 + pdata.length) := by
      rw [hmid, List.length_take, List.length_drop]
      omega
    have houtlen : out.length = frame.length := by
      rw [hout]
      simp only [List.length_append, length_hdrBytes, hmidlen, length_flatMap_slotBytes]
      omega
    have hassoc : out = hdrBytes hdrW ++ (pdata ++ (mid ++ pslots.flatMap slotBytes)) := by
      rw [hout, List.append_assoc, List.append_assoc]
    obtain ⟨hr0, hr2, hr4⟩ :=
      readU16_hdrBytes hdrW (pdata ++ (mid ++ pslots.flatMap slotBytes))
    have hsc : readU16 out 0 = pslots.length := by
      rw [hassoc, hr0, hhdrW]
      show w16 (w16 pslots.length) = pslots.length
      rw [w16_eq_of_lt (w16_lt _), w16_eq_of_lt hsl]
    have hfo2 : readU16 out 2 = 6 + pdata.length := by
      rw [hassoc, hr2, hhdrW]
      show w16 (w16 (6 + pdata.length)) = 6 + pdata.length
      rw [w16_eq_of_lt (w16_lt _), w16_eq_of_lt hdl6]
    have hfb4 : readU16 out 4 = pfb := by
      rw [hassoc, hr4, hhdrW]
      exact w16_eq_of_lt hfb
    have hpre : (hdrBytes hdrW ++ pdata ++ mid).length
        = frame.length - pslots.length * 4 := by
      simp only [List.length_append, length_hdrBytes, hmidlen]
      omega
    have hslots_parse : parseSlots out (frame.length - pslots.length * 4)
        pslots.length = pslots := by
      rw [← hpre, hout]
      exact parseSlots_at pslots (hdrBytes hdrW ++ pdata ++ mid) hslots
    have hdata : (out.drop 6).take (6 + pdata.length - 6) = pdata := by
      rw [show (6 + pdata.length - 6 : Nat) = pdata.length by omega, hassoc,
        show (6 : Nat) = (hdrBytes hdrW).length from (length_hdrBytes _).symm,
        List.drop_left]
      exact List.take_left _ _
    have hmain : loadPage out = some (.ok
        { header := { slot_count := pslots.length, free_offset := 6 + pdata.length,
                      free_bytes := pfb }
          data := pdata, slots := pslots }) := by
      simp only [loadPage, PAGE_HDR_SIZE]
      rw [if_neg (by omega)]
      rw [hsc, hfo2, hfb4, houtlen]
      rw [if_neg (by omega)]
      rw [hslots_parse]
      rw [if_neg (by omega), if_neg (by omega)]
      rw [hdata]
    refine ⟨hmain, ?_⟩
    rw [hmain]
    constructor
    · intro h
      injection h with h1
      injection h1 with h2
      injection h2 with hh hd hs
      injection hh with hh1 hh2 hh3
      exact ⟨hh1.symm, hh2.symm⟩
    · rintro ⟨hc1, hc2⟩
      rw [hc1, hc2]
      rfl

/-- Counterexample for C6 as stated: the (inconsistent) page whose
stored header claims `slot_count = 5` over an empty directory is a
page that fits the frame, but `load(flush(p))` returns the normalised
page with `slot_count = 0`, not `p`. -/
theorem C6_counterexample :
    flushPage { header := { slot_count := 5, free_offset := 6, free_bytes := 0 },
                data := [], slots := [] } (List.replicate 16 0)
      = .ok [0, 0, 6, 0, 0, 0, 0, 0, 0, 0, 0, 0, 0, 0, 0, 0] ∧
    loadPage [0, 0, 6, 0, 0, 0, 0, 0, 0, 0, 0, 0, 0, 0, 0, 0]
      = some (.ok { header := { slot_count := 0, free_offset := 6, free_bytes := 0 },
                    data := [], slots := [] }) ∧
    ({ header := { slot_count := 0, free_offset := 6, free_bytes := 0 },
       data := [], slots := [] } : Page)
      ≠ { header := { slot_count := 5, free_offset := 6, free_bytes := 0 },
          data := [], slots := [] } := by
  exact ⟨rfl, rfl, by decide⟩

/-- Witness for C6 (amended): a consistent two-record page
round-trips through a 32-byte frame. -/
theorem C6_amended_witness :
    ∃ out, flushPage { header := { slot_count := 2, free_offset := 9, free_bytes := 15 },
                       data := [10, 11, 12], slots := [(6, 1), (7, 2)] }
        (List.replicate 32 0) = .ok out ∧
      loadPage out = some (.ok
        { header := { slot_count := 2, free_offset := 9, free_bytes := 15 }
          data := [10, 11, 12], slots := [(6, 1), (7, 2)] }) := by
  obtain ⟨out, h1, h2, h3⟩ := C6_amended
    { header := { slot_count := 2, free_offset := 9, free_bytes := 15 }
      data := [10, 11, 12], slots := [(6, 1), (7, 2)] }
    (List.replicate 32 0) (by decide) (by decide) (by decide) (by decide) (by decide)
  exact ⟨out, h1, h3.mpr ⟨rfl, rfl⟩⟩

/-! ### Lemmas for the 12-byte free-list header codec -/

theorem getD_lt_256 {l : List Nat} (h : ∀ x ∈ l, x < 256) (i : Nat) :
    l.getD i 0 < 256 := by
  by_cases hi : i < l.length
  · rw [List.getD_eq_getElem l 0 hi]
    exact h _ (List.getElem_mem hi)
  · rw [List.getD_eq_default l 0 (by omega)]
    norm_num

theorem decodeU32_lt {l : List Nat} (h : ∀ x ∈ l, x < 256) (i : Nat) :
    decodeU32 l i < 4294967296 := by
  unfold decodeU32
  have h0 := getD_lt_256 h i
  have h1 := getD_lt_256 h (i + 1)
  have h2 := getD_lt_256 h (i + 2)
  have h3 := getD_lt_256 h (i + 3)
  omega

theorem decodeI32_range {l : List Nat} (h : ∀ x ∈ l, x < 256) (i : Nat) :
    -2147483648 ≤ decodeI32 l i ∧ decodeI32 l i < 2147483648 := by
  have := decodeU32_lt h i
  constructor
  · show -2147483648 ≤ (if decodeU32 l i < 2147483648 then ((decodeU32 l i : Nat) : Int)
      else ((decodeU32 l i : Nat) : Int) - 4294967296)
    split <;> omega
  · show (if decodeU32 l i < 2147483648 then ((decodeU32 l i : Nat) : Int)
      else ((decodeU32 l i : Nat) : Int) - 4294967296) < 2147483648
    split <;> omega

theorem length_encodeI32 (x : Int) : (encodeI32 x).length = 4 := rfl

theorem length_encodeU32 (n : Nat) : (encodeU32 n).length = 4 := rfl

theorem decodeU32_shift (x l : List Nat) (i : Nat) :
    decodeU32 (x ++ l) (x.length + i) = decodeU32 l i := by
  unfold decodeU32
  rw [getD_append_at, show x.length + i + 1 = x.length + (i + 1) by omega, getD_append_at,
    show x.length + i + 2 = x.length + (i + 2) by omega, getD_append_at,
    show x.length + i + 3 = x.length + (i + 3) by omega, getD_append_at]

theorem decodeI32_shift (x l : List Nat) (i : Nat) :
    decodeI32 (x ++ l) (x.length + i) = decodeI32 l i := by
  unfold decodeI32
  rw [decodeU32_shift]

theorem decodeU32_encodeU32 {n : Nat} (h : n < 4294967296) (rest : List Nat) :
    decodeU32 (encodeU32 n ++ rest) 0 = n := by
  unfold encodeU32 decodeU32
  simp only [List.cons_append, List.nil_append, List.getD_cons_zero, List.getD_cons_succ]
  have hn : n % 4294967296 = n := Nat.mod_eq_of_lt h
  rw [hn]
  omega

theorem decodeI32_encodeI32 {x : Int} (h1 : -2147483648 ≤ x) (h2 : x < 2147483648)
    (rest : List Nat) :
    decodeI32 (encodeI32 x ++ rest) 0 = x := by
  unfold encodeI32 decodeI32 decodeU32
  simp only [List.cons_append, List.nil_append, List.getD_cons_zero, List.getD_cons_succ]
  have hnn : (0 : Int) ≤ x % 4294967296 :=
    Int.emod_nonneg x (by norm_num)
  have hlt : x % 4294967296 < 4294967296 :=
    Int.emod_lt_of_pos x (by norm_num)
  have hult : (x % 4294967296).toNat < 4294967296 := by omega
  have hrec : (x % 4294967296).toNat % 256
      + 256 * ((x % 4294967296).toNat / 256 % 256)
      + 65536 * ((x % 4294967296).toNat / 65536 % 256)
      + 16777216 * ((x % 4294967296).toNat / 16777216 % 256)
      = (x % 4294967296).toNat := by omega
  rw [hrec]
  split <;> omega

theorem decodeFmHdr_encodeFmHdr (h : FmPageHeader) (rest : List Nat)
    (hn1 : -2147483648 ≤ h.next_free_page) (hn2 : h.next_free_page < 2147483648)
    (hp1 : -2147483648 ≤ h.prev_free_page) (hp2 : h.prev_free_page < 2147483648)
    (hfb : h.free_bytes < 4294967296) :
    decodeFmHdr (encodeFmHdr h ++ rest) = h := by
  have hflat : encodeFmHdr h ++ rest
      = encodeI32 h.next_free_page
        ++ (encodeI32 h.prev_free_page ++ (encodeU32 h.free_bytes ++ rest)) := by
    unfold encodeFmHdr
    rw [List.append_assoc, List.append_assoc]
  unfold decodeFmHdr
  have hf1 : decodeI32 (encodeFmHdr h ++ rest) 0 = h.next_free_page := by
    rw [hflat]
    exact decodeI32_encodeI32 hn1 hn2 _
  have hf2 : decodeI32 (encodeFmHdr h ++ rest) 4 = h.prev_free_page := by
    rw [hflat, show (4 : Nat) = (encodeI32 h.next_free_page).length + 0 from rfl,
      decodeI32_shift]
    exact decodeI32_encodeI32 hp1 hp2 _
  have hf3 : decodeU32 (encodeFmHdr h ++ rest) 8 = h.free_bytes := by
    rw [hflat, ← List.append_assoc,
      show (8 : Nat) = (encodeI32 h.next_free_page ++ encodeI32 h.prev_free_page).length + 0
        from rfl,
      decodeU32_shift]
    exact decodeU32_encodeU32 hfb _
  rw [hf1, hf2, hf3]

/-! ### Claim C7: allocation/free round-trip -/

theorem read_page_header_ok (st : FHState) (n : Nat) (h : n < st.header.blk_cnt) :
    read_page_header st n = .ok (decodeFmHdr (st.disk n)) := by
  unfold read_page_header ensureBlockRange
  rw [if_neg (Nat.not_le.mpr h)]

theorem write_page_header_ok (st : FHState) (n : Nat) (hd : FmPageHeader)
    (h : n < st.header.blk_cnt) :
    write_page_header st n hd = .ok
      { st with disk := fun m =>
          if m = n then encodeFmHdr hd ++ (st.disk n).drop FM_PAGE_HDR_LEN
          else st.disk m } := by
  unfold write_page_header ensureBlockRange
  rw [if_neg (Nat.not_le.mpr h)]

/-- `allocate_block` with an empty free list appends a fresh block
carrying the free-style header. -/
theorem allocate_append (st : FHState) (f : Nat)
    (hffh : st.header.first_free_hole < 0) :
    ∃ st', allocate_block st (f + 1) = some (.ok (st.header.blk_cnt, st')) ∧
      st'.header.first_free_hole = st.header.first_free_hole ∧
      st'.header.blk_cnt = (st.header.blk_cnt + 1) % 4294967296 ∧
      st'.disk st.header.blk_cnt
        = encodeFmHdr newFreeHdr ++ List.replicate (BLOCK_SIZE - FM_PAGE_HDR_LEN) 0 := by
  refine ⟨{ st with
      header := { st.header with blk_cnt := (st.header.blk_cnt + 1) % 4294967296 }
      header_dirty := true
      disk := fun m =>
        if m = st.header.blk_cnt
        then encodeFmHdr newFreeHdr ++ List.replicate (BLOCK_SIZE - FM_PAGE_HDR_LEN) 0
        else st.disk m }, ?_, rfl, rfl, ?_⟩
  · unfold allocate_block allocate_block_with_space take_free_block take_free_block_loop
    rw [if_pos hffh]
    rfl
  · show (fun m => if m = st.header.blk_cnt
        then encodeFmHdr newFreeHdr ++ List.replicate (BLOCK_SIZE - FM_PAGE_HDR_LEN) 0
        else st.disk m) st.header.blk_cnt = _
    simp

/-- `free_block` on a block whose stored links are `(−1, −1)` and that
is not the current head pushes it at the head of the free list,
leaving `blk_cnt` unchanged. -/
theorem free_block_push (st : FHState) (n : Nat)
    (hn0 : ¬ n = 0) (hrange : n < st.header.blk_cnt)
    (hprev : (decodeFmHdr (st.disk n)).prev_free_page = -1)
    (hnext : (decodeFmHdr (st.disk n)).next_free_page = -1)
    (hne : ¬ st.header.first_free_hole = (n : Int))
    (hcase : st.header.first_free_hole < 0 ∨
      (0 ≤ st.header.first_free_hole ∧
        st.header.first_free_hole.toNat < st.header.blk_cnt)) :
    ∃ st', free_block st n = .ok st' ∧
      st'.header.first_free_hole = (n : Int) ∧
      st'.header.blk_cnt = st.header.blk_cnt := by
  have hcond : ¬ ((decodeFmHdr (st.disk n)).prev_free_page ≠ -1 ∨
      (decodeFmHdr (st.disk n)).next_free_page ≠ -1 ∨
      st.header.first_free_hole = (n : Int)) := by
    push_neg
    exact ⟨hprev, hnext, hne⟩
  simp only [free_block]
  rw [if_neg hn0, read_page_header_ok st n hrange]
  simp only []
  rw [if_neg hcond]
  obtain ⟨st1, hw1, hh1⟩ : ∃ st1,
      write_page_header st n
        (FmPageHeader.mk st.header.first_free_hole (-1) maxFreeBytes) = .ok st1 ∧
      st1.header = st.header :=
    ⟨_, write_page_header_ok st n _ hrange, rfl⟩
  rw [hw1]
  simp only []
  rcases hcase with hneg | ⟨hpos, hrange2⟩
  · rw [if_neg (show ¬ ((FmPageHeader.mk st.header.first_free_hole (-1)
        maxFreeBytes).next_free_page ≥ 0) from by
          show ¬ (st.header.first_free_hole ≥ 0)
          omega)]
    refine ⟨_, rfl, ?_, ?_⟩
    · rfl
    · show st1.header.blk_cnt = st.header.blk_cnt
      rw [hh1]
  · rw [if_pos (show (FmPageHeader.mk st.header.first_free_hole (-1)
        maxFreeBytes).next_free_page ≥ 0 from hpos)]
    rw [read_page_header_ok st1 _ (show (FmPageHeader.mk st.header.first_free_hole (-1)
        maxFreeBytes).next_free_page.toNat < st1.header.blk_cnt from by
        rw [hh1]; exact hrange2)]
    simp only []
    obtain ⟨st2, hw2, hh2⟩ : ∃ st2,
        write_page_header st1
          (FmPageHeader.mk st.header.first_free_hole (-1) maxFreeBytes).next_free_page.toNat
          { decodeFmHdr (st1.disk (FmPageHeader.mk st.header.first_free_hole (-1)
              maxFreeBytes).next_free_page.toNat) with
            prev_free_page := (n : Int) } = .ok st2 ∧
        st2.header = st1.header :=
      ⟨_, write_page_header_ok st1 _ _ (by rw [hh1]; exact hrange2), rfl⟩
    rw [hw2]
    refine ⟨_, rfl, ?_, ?_⟩
    · rfl
    · show st2.header.blk_cnt = st.header.blk_cnt
      rw [hh2, hh1]

/-- `detach_from_free_list` of a list head (`prev = −1`): the header's
`first_free_hole` moves to the head's successor, `blk_cnt` is
untouched, and only the successor's block bytes may change. -/
theorem detach_head_shape (st : FHState) (hd : FmPageHeader)
    (hprev : hd.prev_free_page = -1)
    (hnx : hd.next_free_page < 0 ∨
      (0 ≤ hd.next_free_page ∧ hd.next_free_page.toNat < st.header.blk_cnt)) :
    ∃ stD, detach_from_free_list st hd = .ok stD ∧
      stD.header.first_free_hole = hd.next_free_page ∧
      stD.header.blk_cnt = st.header.blk_cnt ∧
      ∀ m, m ≠ hd.next_free_page.toNat → stD.disk m = st.disk m := by
  simp only [detach_from_free_list]
  rw [if_neg (show ¬ (hd.prev_free_page ≥ 0) from by rw [hprev]; decide)]
  simp only []
  rcases hnx with hneg | ⟨hpos, hrange2⟩
  · rw [if_neg (show ¬ (hd.next_free_page ≥ 0) from by omega)]
    exact ⟨_, rfl, rfl, rfl, fun m _ => rfl⟩
  · rw [if_pos (show hd.next_free_page ≥ 0 from hpos)]
    rw [read_page_header_ok
      { st with header := { st.header with first_free_hole := hd.next_free_page }
                header_dirty := true }
      hd.next_free_page.toNat (by exact hrange2)]
    simp only []
    rw [write_page_header_ok
      { st with header := { st.header with first_free_hole := hd.next_free_page }
                header_dirty := true }
      hd.next_free_page.toNat _ (by exact hrange2)]
    refine ⟨_, rfl, rfl, rfl, ?_⟩
    intro m hm
    show (fun m' => if m' = hd.next_free_page.toNat then _ else _) m = st.disk m
    simp only [if_neg hm]

/-- `allocate_block` with a well-formed head `hnum` on the free list
serves `hnum`: the new head is `hnum`'s old successor, `blk_cnt` is
unchanged, and block `hnum`'s header is rewritten with cleared links. -/
theorem allocate_head (st : FHState) (hnum f : Nat)
    (h1 : 1 ≤ hnum)
    (hffh : st.header.first_free_hole = (hnum : Int))
    (hrange : hnum < st.header.blk_cnt)
    (hprev : (decodeFmHdr (st.disk hnum)).prev_free_page = -1)
    (hnx : (decodeFmHdr (st.disk hnum)).next_free_page < 0 ∨
      (0 ≤ (decodeFmHdr (st.disk hnum)).next_free_page ∧
       (decodeFmHdr (st.disk hnum)).next_free_page.toNat < st.header.blk_cnt ∧
       (decodeFmHdr (st.disk hnum)).next_free_page.toNat ≠ hnum)) :
    ∃ st', allocate_block st (f + 1) = some (.ok (hnum, st')) ∧
      st'.header.first_free_hole = (decodeFmHdr (st.disk hnum)).next_free_page ∧
      st'.header.blk_cnt = st.header.blk_cnt ∧
      st'.disk hnum = encodeFmHdr { decodeFmHdr (st.disk hnum) with
          next_free_page := -1, prev_free_page := -1 }
        ++ (st.disk hnum).drop FM_PAGE_HDR_LEN := by
  have hne' : (decodeFmHdr (st.disk hnum)).next_free_page.toNat ≠ hnum := by
    rcases hnx with hneg | ⟨-, -, hne⟩
    · intro he
      omega
    · exact hne
  obtain ⟨stD, hD, hDffh, hDcnt, hDdisk⟩ := detach_head_shape st (decodeFmHdr (st.disk hnum))
    hprev (by rcases hnx with hneg | ⟨hpos, hr2, -⟩; exact Or.inl hneg; exact Or.inr ⟨hpos, hr2⟩)
  simp only [allocate_block, allocate_block_with_space, take_free_block,
    take_free_block_loop]
  rw [hffh]
  rw [if_neg (show ¬ ((hnum : Int) < 0) from by omega)]
  rw [show ((hnum : Int)).toNat = hnum from rfl]
  rw [read_page_header_ok st hnum hrange]
  simp only []
  rw [if_pos (Nat.zero_le _)]
  rw [hD]
  simp only []
  rw [write_page_header_ok stD hnum _ (by rw [hDcnt]; exact hrange)]
  refine ⟨_, rfl, ?_, ?_, ?_⟩
  · exact hDffh
  · exact hDcnt
  · show (if hnum = hnum
        then encodeFmHdr { decodeFmHdr (st.disk hnum) with
            next_free_page := -1, prev_free_page := -1 }
          ++ (stD.disk hnum).drop FM_PAGE_HDR_LEN
        else stD.disk hnum) = _
    rw [if_pos rfl, hDdisk hnum (Ne.symm hne')]

/-- C7: `allocate_block` immediately followed by `free_block` of the
returned block.  First conjunct (allocation served from the free
list, i.e. `first_free_hole` is a well-formed head `hnum ≥ 1`):
`first_free_hole` returns to its prior value and `blk_cnt` is
unchanged.  Second conjunct (empty free list, allocation appends):
the subsequent `free_block` makes `first_free_hole` the just-freed
block number `blk_cnt` and the count stays at `prior + 1`.  Together
they give the round-trip property: the pair `(first_free_hole,
blk_cnt)` is restored exactly when the allocation came from the free
list. -/
theorem C7_alloc_free_roundtrip :
    (∀ (st : FHState) (hnum fuel : Nat),
      1 ≤ fuel → 1 ≤ hnum → hnum < st.header.blk_cnt →
      st.header.first_free_hole = (hnum : Int) →
      (∀ x ∈ st.disk hnum, x < 256) →
      (decodeFmHdr (st.disk hnum)).prev_free_page = -1 →
      ((decodeFmHdr (st.disk hnum)).next_free_page < 0 ∨
        (0 ≤ (decodeFmHdr (st.disk hnum)).next_free_page ∧
         (decodeFmHdr (st.disk hnum)).next_free_page.toNat < st.header.blk_cnt ∧
         (decodeFmHdr (st.disk hnum)).next_free_page.toNat ≠ hnum)) →
      ∃ st', allocThenFree st fuel = some (.ok (hnum, st')) ∧
        st'.header.first_free_hole = st.header.first_free_hole ∧
        st'.header.blk_cnt = st.header.blk_cnt) ∧
    (∀ (st : FHState) (fuel : Nat),
      1 ≤ fuel → st.header.first_free_hole < 0 →
      1 ≤ st.header.blk_cnt → st.header.blk_cnt + 1 < 4294967296 →
      ∃ st', allocThenFree st fuel = some (.ok (st.header.blk_cnt, st')) ∧
        st'.header.first_free_hole = (st.header.blk_cnt : Int) ∧
        st'.header.blk_cnt = st.header.blk_cnt + 1) := by
  constructor
  · intro st hnum fuel hfuel h1 hrange hffh hby hprev hnx
    obtain ⟨f, rfl⟩ : ∃ f, fuel = f + 1 := ⟨fuel - 1, by omega⟩
    obtain ⟨st1, hA, hAffh, hAcnt, hAdisk⟩ := allocate_head st hnum f h1 hffh hrange hprev hnx
    have hfb32 : (decodeFmHdr (st.disk hnum)).free_bytes < 4294967296 := decodeU32_lt hby 8
    have hdec1 : decodeFmHdr (st1.disk hnum)
        = { decodeFmHdr (st.disk hnum) with next_free_page := -1, prev_free_page := -1 } := by
      rw [hAdisk]
      exact decodeFmHdr_encodeFmHdr _ _
        (by show (-2147483648 : Int) ≤ -1; decide)
        (by show (-1 : Int) < 2147483648; decide)
        (by show (-2147483648 : Int) ≤ -1; decide)
        (by show (-1 : Int) < 2147483648; decide)
        hfb32
    have hprev1 : (decodeFmHdr (st1.disk hnum)).prev_free_page = -1 := by rw [hdec1]
    have hnext1 : (decodeFmHdr (st1.disk hnum)).next_free_page = -1 := by rw [hdec1]
    have hne1 : ¬ st1.header.first_free_hole = (hnum : Int) := by
      rw [hAffh]
      rcases hnx with hneg | ⟨hpos, -, hne⟩
      · intro he; omega
      · intro he; apply hne; omega
    have hcase1 : st1.header.first_free_hole < 0 ∨
        (0 ≤ st1.header.first_free_hole ∧
          st1.header.first_free_hole.toNat < st1.header.blk_cnt) := by
      rw [hAffh, hAcnt]
      rcases hnx with hneg | ⟨hpos, hr2, -⟩
      · exact Or.inl hneg
      · exact Or.inr ⟨hpos, hr2⟩
    obtain ⟨st2, hF, hFffh, hFcnt⟩ := free_block_push st1 hnum (by omega)
      (by rw [hAcnt]; exact hrange) hprev1 hnext1 hne1 hcase1
    refine ⟨st2, ?_, ?_, ?_⟩
    · unfold allocThenFree
      rw [hA]
      simp only []
      rw [hF]
    · rw [hFffh, hffh]
    · rw [hFcnt, hAcnt]
  · intro st fuel hfuel hffh hc1 hc2
    obtain ⟨f, rfl⟩ : ∃ f, fuel = f + 1 := ⟨fuel - 1, by omega⟩
    obtain ⟨st1, hA, hAffh, hAcnt, hAdisk⟩ := allocate_append st f hffh
    have hdec1 : decodeFmHdr (st1.disk st.header.blk_cnt) = newFreeHdr := by
      rw [hAdisk]
      exact decodeFmHdr_encodeFmHdr newFreeHdr _ (by decide) (by decide) (by decide)
        (by decide) (by decide)
    have hprev1 : (decodeFmHdr (st1.disk st.header.blk_cnt)).prev_free_page = -1 := by
      rw [hdec1]; decide
    have hnext1 : (decodeFmHdr (st1.disk st.header.blk_cnt)).next_free_page = -1 := by
      rw [hdec1]; decide
    have hne1 : ¬ st1.header.first_free_hole = (st.header.blk_cnt : Int) := by
      rw [hAffh]
      intro he
      omega
    have hcase1 : st1.header.first_free_hole < 0 ∨
        (0 ≤ st1.header.first_free_hole ∧
          st1.header.first_free_hole.toNat < st1.header.blk_cnt) := by
      rw [hAffh]
      exact Or.inl hffh
    have hmod : (st.header.blk_cnt + 1) % 4294967296 = st.header.blk_cnt + 1 :=
      Nat.mod_eq_of_lt hc2
    obtain ⟨st2, hF, hFffh, hFcnt⟩ := free_block_push st1 st.header.blk_cnt (by omega)
      (by rw [hAcnt, hmod]; omega) hprev1 hnext1 hne1 hcase1
    refine ⟨st2, ?_, hFffh, ?_⟩
    · unfold allocThenFree
      rw [hA]
      simp only []
      rw [hF]
    · rw [hFcnt, hAcnt, hmod]

/-- A file whose free list holds exactly block 1. -/
def stC7A : FHState :=
  { header := { blk_cnt := 3, first_free_hole := 1, pre_f := 0, next_f := 0 }
    header_dirty := false
    disk := fun m => if m = 1 then encodeFmHdr (FmPageHeader.mk (-1) (-1) 7) else [] }

/-- A two-block file with an empty free list. -/
def stC7B : FHState :=
  { header := { blk_cnt := 2, first_free_hole := -1, pre_f := 0, next_f := 0 }
    header_dirty := false
    disk := fun _ => [] }

/-- Witness for C7: both round-trip cases at concrete states. -/
theorem C7_alloc_free_roundtrip_witness :
    (∃ st', allocThenFree stC7A 1 = some (.ok (1, st')) ∧
      st'.header.first_free_hole = stC7A.header.first_free_hole ∧
      st'.header.blk_cnt = stC7A.header.blk_cnt) ∧
    (∃ st', allocThenFree stC7B 1 = some (.ok (stC7B.header.blk_cnt, st')) ∧
      st'.header.first_free_hole = (stC7B.header.blk_cnt : Int) ∧
      st'.header.blk_cnt = stC7B.header.blk_cnt + 1) := by
  constructor
  · exact C7_alloc_free_roundtrip.1 stC7A 1 1 (by decide) (by decide) (by decide)
      (by decide) (by decide) (by decide) (Or.inl (by decide))
  · exact C7_alloc_free_roundtrip.2 stC7B 1 (by decide) (by decide) (by decide) (by decide)

/-! ### Claim C9: `free_block` silently ignores live pages -/

/-- C9: for `1 ≤ n < blk_cnt`, `free_block(n)` returns `Ok` while
leaving the state (file bytes, in-memory header, free list)
completely unchanged whenever the first 12 bytes of block `n`, decoded
as a free-list page header, have `next_free_page ≠ −1` or
`prev_free_page ≠ −1` or `n` is the current `first_free_hole`.  In
particular the block image `allocate_data_page` writes decodes to
`next_free_page = 6 · 2^16 = 393216 ≠ −1` (the `free_offset = 6`
field of the slotted header lands inside the `next_free_page` bytes),
so freeing a live data page silently does nothing. -/
theorem C9_free_block_live_page_noop :
    (∀ (st : FHState) (n : Nat), 1 ≤ n → n < st.header.blk_cnt →
      ((decodeFmHdr (st.disk n)).next_free_page ≠ -1 ∨
       (decodeFmHdr (st.disk n)).prev_free_page ≠ -1 ∨
       st.header.first_free_hole = (n : Int)) →
      free_block st n = .ok st) ∧
    (decodeFmHdr (allocDataPageBuf BLOCK_SIZE)).next_free_page = 393216 ∧
    (decodeFmHdr (allocDataPageBuf BLOCK_SIZE)).next_free_page ≠ -1 := by
  refine ⟨?_, rfl, by decide⟩
  intro st n h1 h2 h3
  have hn0 : ¬ (n = 0) := by omega
  have hcond : (decodeFmHdr (st.disk n)).prev_free_page ≠ -1 ∨
      (decodeFmHdr (st.disk n)).next_free_page ≠ -1 ∨
      st.header.first_free_hole = (n : Int) := by tauto
  unfold free_block read_page_header ensureBlockRange
  rw [if_neg hn0, if_neg (Nat.not_le.mpr h2)]
  simp only []
  rw [if_pos hcond]

/-- A three-block file whose block 1 holds a freshly initialised
16-byte data page. -/
def st9 : FHState :=
  { header := { blk_cnt := 3, first_free_hole := -1, pre_f := 0, next_f := 0 }
    header_dirty := false
    disk := fun m => if m = 1 then allocDataPageBuf 16 else [] }

/-- Witness for C9: freeing the live data page in block 1 of `st9` is
a silent no-op. -/
theorem C9_free_block_live_page_noop_witness : free_block st9 1 = .ok st9 :=
  C9_free_block_live_page_noop.1 st9 1 (by decide) (by decide) (.inl (by decide))

end DbEngine
